import Mathlib

/-!
Verification development for the EcoSynthesisAI single-page application
(`src/App.tsx`).  The stateful React component is embedded shallowly:

* component state becomes an explicit `AppState` record threaded through
  pure transition functions, one per event handler of the source;
* every network call is replaced by an oracle parameter (a function from
  the request data to the service's response), so theorems quantify over
  all possible service behaviours;
* JavaScript strings are modelled by `String`/`List Char` (code points in
  place of UTF-16 units), JS `Date.now()` and `Math.random()` by explicit
  oracle parameters.

Definitions come first, theorems afterwards.
-/

set_option maxHeartbeats 1000000

namespace EcoSynth

/-! ## Text utilities (JS string primitives used by the segmenter) -/

/-- Whitespace recognised by JS `String.prototype.trim` (the subset of
code points that can occur in this pipeline). -/
def isJsWs (c : Char) : Bool :=
  c = ' ' || c = '\t' || c = '\n' || c = '\r' ||
  c = '\x0b' || c = '\x0c' || c = ' ' || c = '﻿'

/-- Drop trailing whitespace. -/
def dropTrailingWs (l : List Char) : List Char :=
  (l.reverse.dropWhile isJsWs).reverse

/-- JS `String.prototype.trim` on the character list. -/
def trimL (l : List Char) : List Char :=
  dropTrailingWs (l.dropWhile isJsWs)

/-- JS `s.lastIndexOf(pat, j)`: the largest index `i ≤ j` at which `pat`
occurs in `s`, if any. -/
def lastIndexOfLe (pat s : List Char) (j : Nat) : Option Nat :=
  (List.range (j + 1)).reverse.find? (fun i => pat.isPrefixOf (s.drop i))

/-! ## Text Segmenter (`createBatches`, App.tsx lines 258-282) -/

/-- Cut position chosen by one iteration of the `createBatches` loop:
last double newline at or before the limit, else last single newline,
else a hard cut at the limit. -/
def cbCut (maxChunkSize : Nat) (remaining : List Char) : Nat :=
  match lastIndexOfLe ['\n', '\n'] remaining maxChunkSize with
  | some i => i
  | none =>
    match lastIndexOfLe ['\n'] remaining maxChunkSize with
    | some i => i
    | none => maxChunkSize

/-- The `while` loop of `createBatches`, with explicit fuel (the source
loop terminates for every positive chunk size; see `cbGo_spec`). -/
def cbGo (maxChunkSize : Nat) : Nat → List Char → List (List Char)
  | 0, _ => []
  | fuel + 1, remaining =>
    if remaining.length = 0 then []
    else if remaining.length ≤ maxChunkSize then [remaining]
    else
      let cut := cbCut maxChunkSize remaining
      remaining.take cut :: cbGo maxChunkSize fuel (trimL (remaining.drop cut))

/-- `createBatches(text, maxChunkSize)` from App.tsx. -/
def createBatches (text : String) (maxChunkSize : Nat) : List String :=
  (cbGo maxChunkSize (text.data.length + 1) text.data).map List.asString

/-- `ChunksReassemble cs s` says the input `s` is exactly the chunks `cs`
in order, interleaved with (and followed by) whitespace that was trimmed
away at chunk boundaries.  This is the "concatenation ignoring boundary
whitespace reproduces the input" contract of the Text Segmenter. -/
inductive ChunksReassemble : List (List Char) → List Char → Prop
  | nil : ChunksReassemble [] []
  | single (c : List Char) : ChunksReassemble [c] c
  | cons (c lead s trail : List Char) (cs : List (List Char)) :
      (∀ ch ∈ lead, isJsWs ch = true) →
      (∀ ch ∈ trail, isJsWs ch = true) →
      ChunksReassemble cs s →
      ChunksReassemble (c :: cs) (c ++ (lead ++ s ++ trail))

/-! ## Record identifiers

`handleProcessAll` assigns ids of shape `b{counter}-p{idx}-{Date.now()}`,
`handleManualFixSave` ids of shape `b{counter}-fixed-{idx}-{Date.now()}`.
`Date.now()` is modelled by an arbitrary clock value `now`. -/

/-- The id template literals of the Result Merger. -/
def mkPaperId (fixed : Bool) (counter idx now : Nat) : String :=
  "b" ++ Nat.repr counter ++ (if fixed then "-fixed-" else "-p") ++
    Nat.repr idx ++ "-" ++ Nat.repr now

/-- Numeric value of a decimal digit character. -/
def digitVal (c : Char) : Nat := c.toNat - 48

/-- Value of a list of decimal digit characters. -/
def decValue (l : List Char) : Nat := l.foldl (fun a c => 10 * a + digitVal c) 0

/-- Read a maximal nonempty digit run from the front of a character list. -/
def readDigits (l : List Char) : Option (Nat × List Char) :=
  let ds := l.takeWhile Char.isDigit
  if ds.isEmpty then none else some (decValue ds, l.dropWhile Char.isDigit)

/-- Decode the `{idx}-{now}` tail of a record id. -/
def idPartsTail (fixed : Bool) (c : Nat) (r2 : List Char) : Option (Bool × Nat × Nat × Nat) :=
  match readDigits r2 with
  | none => none
  | some (i, r3) =>
    if ['-'].isPrefixOf r3 then
      match readDigits (r3.drop 1) with
      | none => none
      | some (t, r5) => if r5.isEmpty then some (fixed, c, i, t) else none
    else none

/-- Decode a record id character list into (fixed?, counter, idx, now). -/
def idPartsL (l : List Char) : Option (Bool × Nat × Nat × Nat) :=
  if ['b'].isPrefixOf l then
    match readDigits (l.drop 1) with
    | none => none
    | some (c, r1) =>
      if ['-', 'p'].isPrefixOf r1 then idPartsTail false c (r1.drop 2)
      else if ['-', 'f', 'i', 'x', 'e', 'd', '-'].isPrefixOf r1 then idPartsTail true c (r1.drop 7)
      else none
  else none

/-- Decode a record id. `idParts (mkPaperId f c i t) = some (f, c, i, t)`
(see `idParts_mkPaperId`), which makes the id encoding injective. -/
def idParts (s : String) : Option (Bool × Nat × Nat × Nat) := idPartsL s.data

/-- JS `String.prototype.trim`. -/
def jsTrim (s : String) : String := (trimL s.data).asString

/-- JS `x || y` on strings: the empty string (like `undefined`) falls back. -/
def jsOr (a b : String) : String := if a = "" then b else a

/-! ## Data model (the `Paper` record, App.tsx lines 67-88) -/

structure Paper where
  id : String
  title : String
  abstractSnippet : String
  category : String
  theme : String
  driver : String
  driverGroup : String
  response : String
  responseGroup : String
  effectDirection : String
  keyFinding : String
  impactKeywords : String
  location : String
  species : String
  batchId : Nat
  authors : String
  year : String
  journal : String
  shortCitation : String
  modelUsed : String
deriving DecidableEq

/-! ## Proposal shapes (App.tsx lines 136-189) -/

structure SuggestedMerge where
  themes_to_combine : List String
  new_theme_name : String
  reason : String
deriving DecidableEq

structure SuggestedRename where
  current_name : String
  new_name : String
  reason : String
deriving DecidableEq

structure SuggestedMove where
  theme : String
  current_category : String
  target_category : String
  reason : String
deriving DecidableEq

structure SuggestedCategoryMerge where
  source_category : String
  target_category : String
  reason : String
deriving DecidableEq

/-- A surfaced proposal (`ConsolidationSuggestion`). -/
structure ConsolidationSuggestion where
  id : String
  main_category : String
  isVerified : Bool := false
  suggested_merge : Option SuggestedMerge := none
  suggested_rename : Option SuggestedRename := none
  suggested_move : Option SuggestedMove := none
  suggested_category_merge : Option SuggestedCategoryMerge := none
deriving DecidableEq

/-- One entry of the consolidation service's response (no `id` yet). -/
structure RawSuggestion where
  main_category : String
  suggested_merge : Option SuggestedMerge := none
  suggested_rename : Option SuggestedRename := none
  suggested_move : Option SuggestedMove := none
  suggested_category_merge : Option SuggestedCategoryMerge := none
deriving DecidableEq

/-- The consolidation service's response (`ConsolidationResult`). -/
structure ConsolidationResult where
  status : String
  suggestions : List RawSuggestion
deriving DecidableEq

/-- JS `Array.prototype.sort()` on strings (lexicographic). -/
def jsSortStrings (l : List String) : List String := l.mergeSort (fun a b => a ≤ b)

/-- `getSuggestionSignature` (App.tsx lines 222-236). -/
def getSuggestionSignature (s : ConsolidationSuggestion) : String :=
  match s.suggested_merge with
  | some m =>
    "MERGE: In \x27" ++ s.main_category ++ "\x27, combine [" ++
      String.intercalate ", " (jsSortStrings m.themes_to_combine) ++ "] into \x27" ++
      m.new_theme_name ++ "\x27"
  | none =>
    match s.suggested_rename with
    | some r => "RENAME: \x27" ++ r.current_name ++ "\x27 to \x27" ++ r.new_name ++ "\x27"
    | none =>
      match s.suggested_move with
      | some mv =>
        "MOVE: \x27" ++ mv.theme ++ "\x27 from \x27" ++ mv.current_category ++
          "\x27 to \x27" ++ mv.target_category ++ "\x27"
      | none =>
        match s.suggested_category_merge with
        | some cm =>
          "CAT_MERGE: \x27" ++ cm.source_category ++ "\x27 into \x27" ++
            cm.target_category ++ "\x27"
        | none => ""

/-! ## Application state

The component state relevant to the claims; UI-only state (view mode,
modals, chat, drag highlights, …) is omitted. -/

structure AppState where
  apiKey : String := ""
  reviewTopic : String := ""
  inputText : String := ""
  papers : List Paper := []
  batchCount : Nat := 0
  isOptimized : Bool := false
  isTermsNormalized : Bool := false
  isDriverGrouped : Bool := false
  isResponseGrouped : Bool := false
  consolidationSuggestions : Option (List ConsolidationSuggestion) := none
  isConsolidationComplete : Bool := false
  rejectedSuggestions : List String := []
  lockedItems : List String := []
  manualFixState : Option (String × Nat) := none
deriving DecidableEq

/-! ## Accept / reject handlers (App.tsx lines 1924-2050) -/

/-- The per-suggestion update that accepting a category merge applies to
every other pending suggestion (the `if … return` chain of lines
1964-1980: at most the first matching reference is rewritten). -/
def propagateCatMerge (sid source_category target_category : String)
    (s : ConsolidationSuggestion) : ConsolidationSuggestion :=
  if s.id = sid then s
  else if s.main_category = source_category then { s with main_category := target_category }
  else
    match s.suggested_move with
    | some mv =>
      if mv.current_category = source_category then
        { s with suggested_move := some { mv with current_category := target_category } }
      else if mv.target_category = source_category then
        { s with suggested_move := some { mv with target_category := target_category } }
      else s
    | none => s

/-- The per-suggestion update that accepting a rename applies to every
other pending suggestion (the `if … return` chain of lines 1999-2026:
at most the first matching reference is rewritten). -/
def propagateRename (sid current_name new_name : String)
    (s : ConsolidationSuggestion) : ConsolidationSuggestion :=
  if s.id = sid then s
  else if s.main_category = current_name then { s with main_category := new_name }
  else
    match s.suggested_move with
    | some mv =>
      if mv.current_category = current_name then
        { s with suggested_move := some { mv with current_category := new_name } }
      else if mv.target_category = current_name then
        { s with suggested_move := some { mv with target_category := new_name } }
      else
        match s.suggested_category_merge with
        | some cm =>
          if cm.source_category = current_name then
            { s with suggested_category_merge := some { cm with source_category := new_name } }
          else if cm.target_category = current_name then
            { s with suggested_category_merge := some { cm with target_category := new_name } }
          else s
        | none => s
    | none =>
      match s.suggested_category_merge with
      | some cm =>
        if cm.source_category = current_name then
          { s with suggested_category_merge := some { cm with source_category := new_name } }
        else if cm.target_category = current_name then
          { s with suggested_category_merge := some { cm with target_category := new_name } }
        else s
      | none => s

/-- Step 1 of `handleAcceptSuggestion` (lines 1931-1939): apply a merge. -/
def applyMergeStage (mc : String) (o : Option SuggestedMerge) (ps : List Paper) : List Paper :=
  match o with
  | some m => ps.map (fun p =>
      if p.category = mc ∧ p.theme ∈ m.themes_to_combine
      then { p with theme := m.new_theme_name } else p)
  | none => ps

/-- Step 2 of `handleAcceptSuggestion` (lines 1942-1950): apply a move. -/
def applyMoveStage (o : Option SuggestedMove) (ps : List Paper) : List Paper :=
  match o with
  | some mv => ps.map (fun p =>
      if p.category = mv.current_category ∧ p.theme = mv.theme
      then { p with category := mv.target_category } else p)
  | none => ps

/-- Step 3 of `handleAcceptSuggestion` (lines 1953-1960): apply a
category merge to the records. -/
def applyCatMergeStage (o : Option SuggestedCategoryMerge) (ps : List Paper) : List Paper :=
  match o with
  | some cm => ps.map (fun p =>
      if p.category = cm.source_category then { p with category := cm.target_category }
      else p)
  | none => ps

/-- Step 4 of `handleAcceptSuggestion` (lines 1986-1995): apply a rename
to the records. -/
def applyRenameStage (o : Option SuggestedRename) (ps : List Paper) : List Paper :=
  match o with
  | some r => ps.map (fun p =>
      if p.category = r.current_name then { p with category := r.new_name } else p)
  | none => ps

/-- `handleAcceptSuggestion`.  Both propagation blocks of the source read
the render-time (pre-accept) suggestion list, while the final removal is a
functional update; the embedding mirrors that. -/
def handleAcceptSuggestion (st : AppState) (suggestionId : String) : AppState :=
  match (st.consolidationSuggestions.getD []).find? (fun s => s.id == suggestionId) with
  | none => st
  | some suggestion =>
    let papers4 :=
      applyRenameStage suggestion.suggested_rename
        (applyCatMergeStage suggestion.suggested_category_merge
          (applyMoveStage suggestion.suggested_move
            (applyMergeStage suggestion.main_category suggestion.suggested_merge st.papers)))
    let suggs0 := st.consolidationSuggestions.getD []
    let suggs1 := match suggestion.suggested_category_merge with
      | some cm => suggs0.map (propagateCatMerge suggestionId cm.source_category cm.target_category)
      | none => suggs0
    let suggs2 := match suggestion.suggested_rename with
      | some r => suggs0.map (propagateRename suggestionId r.current_name r.new_name)
      | none => suggs1
    { st with
      papers := papers4
      isOptimized := true
      consolidationSuggestions := some (suggs2.filter (fun s => s.id != suggestionId)) }

/-- `handleRejectSuggestion` (App.tsx lines 2039-2050). -/
def handleRejectSuggestion (st : AppState) (suggestionId : String) : AppState :=
  match (st.consolidationSuggestions.getD []).find? (fun s => s.id == suggestionId) with
  | none => st
  | some suggestion =>
    let signature := getSuggestionSignature suggestion
    { st with
      rejectedSuggestions :=
        if signature = "" then st.rejectedSuggestions
        else st.rejectedSuggestions ++ [signature]
      consolidationSuggestions :=
        some ((st.consolidationSuggestions.getD []).filter (fun s => s.id != suggestionId)) }

/-! ## Consolidation run (App.tsx lines 2150-2257) -/

/-- Merge validity check of the filtering step (lines 2184-2199); the
source's `cleanThemes` is `m.themes_to_combine.map jsTrim` and
`cleanNewName` is `jsTrim m.new_theme_name`, inlined here. -/
def checkMerge (lockedItems : List String) (main_category : String) :
    Option SuggestedMerge → Option SuggestedMerge
  | none => none
  | some m =>
    if ¬ m.themes_to_combine.map jsTrim = [jsTrim m.new_theme_name] ∧
        m.themes_to_combine.map jsTrim ≠ [] ∧
        ((m.themes_to_combine.map jsTrim).any
          (fun t => lockedItems.contains ("theme:" ++ main_category ++ "|||" ++ t))) = false
    then some m else none

/-- Move validity check (lines 2202-2210). -/
def checkMove (lockedItems : List String) : Option SuggestedMove → Option SuggestedMove
  | none => none
  | some mv =>
    if mv.current_category ≠ mv.target_category ∧
        lockedItems.contains ("theme:" ++ mv.current_category ++ "|||" ++ mv.theme) = false
    then some mv else none

/-- Category-merge validity check (lines 2213-2221). -/
def checkCatMerge (lockedItems : List String) :
    Option SuggestedCategoryMerge → Option SuggestedCategoryMerge
  | none => none
  | some cm =>
    if cm.source_category ≠ cm.target_category ∧
        (lockedItems.contains ("cat:" ++ cm.source_category) ||
          lockedItems.contains ("cat:" ++ cm.target_category)) = false
    then some cm else none

/-- Rename validity check (lines 2224-2232). -/
def checkRename (lockedItems : List String) : Option SuggestedRename → Option SuggestedRename
  | none => none
  | some r =>
    if r.current_name ≠ r.new_name ∧
        lockedItems.contains ("cat:" ++ r.current_name) = false
    then some r else none

/-- The filtering loop of `handleConsolidateThemes` (lines 2180-2244):
each raw suggestion keeps only its valid shapes and is surfaced iff some
shape survives.  `idGen` models `Math.random().toString(36).substr(2, 9)`,
indexed by the number of suggestions pushed so far. -/
def filterSuggestions (idGen : Nat → String) (lockedItems : List String) :
    List RawSuggestion → Nat → List ConsolidationSuggestion
  | [], _ => []
  | s :: rest, n =>
    let m' := checkMerge lockedItems s.main_category s.suggested_merge
    let mv' := checkMove lockedItems s.suggested_move
    let cm' := checkCatMerge lockedItems s.suggested_category_merge
    let r' := checkRename lockedItems s.suggested_rename
    if m'.isSome || mv'.isSome || cm'.isSome || r'.isSome then
      { id := idGen n, main_category := s.main_category, suggested_merge := m',
        suggested_rename := r', suggested_move := mv',
        suggested_category_merge := cm' : ConsolidationSuggestion } ::
        filterSuggestions idGen lockedItems rest (n + 1)
    else filterSuggestions idGen lockedItems rest n

/-- The data `handleConsolidateThemes` hands to
`consolidateThemesWithGemini` (which places `rejectedSuggestions` in the
prompt as the exclusion list and `lockedItems` as the locked list). -/
structure ConsolidationRequest where
  taxonomy : List (String × List String)
  paperSamples : List (String × List String)
  rejectedSuggestions : List String
  lockedItems : List String

/-- Taxonomy snapshot built from the corpus (insertion-ordered record,
lines 2162-2165). -/
def buildTaxonomy (papers : List Paper) : List (String × List String) :=
  papers.foldl (fun tax p =>
    let tax := if tax.any (fun e => e.1 == p.category) then tax else tax ++ [(p.category, [])]
    tax.map (fun e => if e.1 = p.category ∧ ¬ p.theme ∈ e.2 then (e.1, e.2 ++ [p.theme]) else e))
    []

/-- Per-theme title samples, capped at 10 (lines 2167-2171). -/
def buildPaperSamples (papers : List Paper) : List (String × List String) :=
  papers.foldl (fun smp p =>
    let key := p.category ++ ": " ++ p.theme
    let smp := if smp.any (fun e => e.1 == key) then smp else smp ++ [(key, [])]
    smp.map (fun e => if e.1 = key ∧ e.2.length < 10 then (e.1, e.2 ++ [p.title]) else e))
    []

/-- The request of one consolidation run over state `st`. -/
def consolidationRequestOf (st : AppState) : ConsolidationRequest :=
  { taxonomy := buildTaxonomy st.papers
    paperSamples := buildPaperSamples st.papers
    rejectedSuggestions := st.rejectedSuggestions
    lockedItems := st.lockedItems }

/-- The placeholder shown when no meaningful suggestion survives. -/
def okPlaceholder : ConsolidationSuggestion :=
  { id := "ok"
    main_category := "Success"
    suggested_merge := some
      { themes_to_combine := []
        new_theme_name := "Structure is Optimal"
        reason := "No significant improvements found." } }

/-- `handleConsolidateThemes`.  The service call is the oracle `svc`
applied to the request (its bounded-retry wrapper degrades to
`no_changes` on failure, which the oracle can also return). -/
def handleConsolidateThemes (idGen : Nat → String)
    (svc : ConsolidationRequest → ConsolidationResult) (st : AppState) : AppState :=
  if st.papers = [] ∨ st.apiKey = "" then st
  else
    let consolidation := svc (consolidationRequestOf st)
    if consolidation.suggestions ≠ [] then
      let suggestionsForUI := filterSuggestions idGen st.lockedItems consolidation.suggestions 0
      if suggestionsForUI = [] then
        { st with
          consolidationSuggestions := some [okPlaceholder]
          isConsolidationComplete := true }
      else
        { st with
          consolidationSuggestions := some suggestionsForUI
          isConsolidationComplete := true }
    else
      { st with
        consolidationSuggestions := some [okPlaceholder]
        isConsolidationComplete := true }

/-! ## Direct rename of a category / theme (`saveEditing`, lines 1554-1585) -/

inductive EditType where
  | cat
  | theme
deriving DecidableEq

structure EditingItem where
  id : String
  type : EditType
  originalName : String
  parentCat : Option String := none
  value : String
deriving DecidableEq

/-- The lock key of the edited item before the edit. -/
def editOldKey (item : EditingItem) : String :=
  match item.type with
  | .cat => "cat:" ++ item.originalName
  | .theme => "theme:" ++ item.parentCat.getD "undefined" ++ "|||" ++ item.originalName

/-- The lock key of the edited item after the edit. -/
def editNewKey (item : EditingItem) : String :=
  match item.type with
  | .cat => "cat:" ++ jsTrim item.value
  | .theme => "theme:" ++ item.parentCat.getD "undefined" ++ "|||" ++ jsTrim item.value

/-- `saveEditing`; `editingItem` is passed explicitly (the source keeps it
in component state, set by `startEditing`). -/
def saveEditing (st : AppState) (editingItem : Option EditingItem) : AppState :=
  match editingItem with
  | none => st
  | some item =>
    let trimmed := jsTrim item.value
    if trimmed = "" ∨ trimmed = item.originalName then st
    else
      let papers := st.papers.map (fun p =>
        if item.type = EditType.cat ∧ p.category = item.originalName then
          { p with category := trimmed }
        else if item.type = EditType.theme ∧ some p.category = item.parentCat ∧
            p.theme = item.originalName then
          { p with theme := trimmed }
        else p)
      let oldKey := editOldKey item
      let newKey := editNewKey item
      let locked :=
        if st.lockedItems.contains oldKey then
          st.lockedItems.filter (fun k => k != oldKey) ++ [newKey]
        else st.lockedItems
      { st with papers := papers, lockedItems := locked, isOptimized := true }

/-! ## Export / import of the persisted state (lines 2362-2407) -/

/-- The persisted document (`state.json`); JSON serialisation is modelled
as the identity on this structured value. -/
structure SavedState where
  papers : List Paper
  reviewTopic : String
  isTermsNormalized : Bool
deriving DecidableEq

/-- `exportStateJSON`: no document is produced for an empty corpus. -/
def exportStateJSON (st : AppState) : Option SavedState :=
  if st.papers = [] then none
  else some
    { papers := st.papers
      reviewTopic := st.reviewTopic
      isTermsNormalized := st.isTermsNormalized }

/-- `importStateJSON` applied to a parsed document (a JS array is truthy
even when empty, so the `if (json.papers)` guard always passes here). -/
def importStateJSON (doc : SavedState) (st : AppState) : AppState :=
  { st with
    papers := doc.papers
    reviewTopic := jsOr doc.reviewTopic ""
    isTermsNormalized := doc.isTermsNormalized
    isDriverGrouped := if doc.isTermsNormalized then true else st.isDriverGrouped
    isResponseGrouped := if doc.isTermsNormalized then true else st.isResponseGrouped
    isOptimized := true }

/-- A concrete record used by witnesses and counterexamples. -/
def samplePaper : Paper :=
  { id := "b1-p0-5"
    title := "T1"
    abstractSnippet := "A"
    category := "Heat Stress"
    theme := "T"
    driver := "D"
    driverGroup := "D"
    response := "R"
    responseGroup := "R"
    effectDirection := "Unclear"
    keyFinding := "K"
    impactKeywords := "I"
    location := "L"
    species := "S"
    batchId := 1
    authors := "Au"
    year := "2020"
    journal := "J"
    shortCitation := "C"
    modelUsed := "m" }

/-- Concrete state for the C9 witness. -/
def c9State : AppState := { papers := [samplePaper], reviewTopic := "heat" }

/-- Concrete exported document for the C9 witness. -/
def c9Doc : SavedState :=
  { papers := [samplePaper], reviewTopic := "heat", isTermsNormalized := false }

/-- Concrete state for the C10 witness. -/
def c10State : AppState := { papers := [samplePaper], lockedItems := ["cat:Heat Stress"] }

/-- Concrete edit for the C10 witness: rename category "Heat Stress" to " Heat ". -/
def c10Item : EditingItem :=
  { id := "cat:Heat Stress", type := EditType.cat, originalName := "Heat Stress",
    value := " Heat " }

/-- Category merge "Heat Stress" → "Abiotic Stress" (C1 scenario). -/
def c1Cm : SuggestedCategoryMerge :=
  { source_category := "Heat Stress", target_category := "Abiotic Stress", reason := "subset" }

/-- The accepted category-merge proposal of the C1 scenario. -/
def c1Accepted : ConsolidationSuggestion :=
  { id := "a", main_category := "Heat Stress", suggested_category_merge := some c1Cm }

/-- A pending category-merge proposal whose target is "Heat Stress". -/
def c1Pending : ConsolidationSuggestion :=
  { id := "b", main_category := "Climate"
    suggested_category_merge := some
      { source_category := "Climate", target_category := "Heat Stress", reason := "dup" } }

/-- State with one "Heat Stress" record and the two C1 proposals pending. -/
def c1State : AppState :=
  { papers := [samplePaper], consolidationSuggestions := some [c1Accepted, c1Pending] }

/-- Rename "X" → "Y" (C2 scenario). -/
def c2R : SuggestedRename := { current_name := "X", new_name := "Y", reason := "broad" }

/-- The accepted rename proposal of the C2 scenario. -/
def c2Accepted : ConsolidationSuggestion :=
  { id := "r", main_category := "X", suggested_rename := some c2R }

/-- A pending move out of category "X" (its own `main_category` is "X" too,
as the service schema prescribes for a move's source). -/
def c2Pending : ConsolidationSuggestion :=
  { id := "m", main_category := "X"
    suggested_move := some
      { theme := "T", current_category := "X", target_category := "Z", reason := "fit" } }

/-- State with one "X" record and the two C2 proposals pending. -/
def c2State : AppState :=
  { papers := [{ samplePaper with category := "X" }]
    consolidationSuggestions := some [c2Accepted, c2Pending] }

/-- A move of theme "T" out of category "X" (C3 scenario). -/
def c3Mv : SuggestedMove :=
  { theme := "T", current_category := "X", target_category := "Y", reason := "fit" }

/-- Service response entry proposing the C3 move. -/
def c3Raw : RawSuggestion := { main_category := "X", suggested_move := some c3Mv }

/-- The C3 move as surfaced by the filtering step under an empty lock set. -/
def c3Surfaced : ConsolidationSuggestion :=
  { id := "n", main_category := "X", suggested_move := some c3Mv }

/-- A move of theme "T" from category "A" to "B" (C4 scenario). -/
def c4Move : SuggestedMove :=
  { theme := "T", current_category := "A", target_category := "B", reason := "fit" }

/-- The surfaced C4 proposal that the user rejects. -/
def c4Sugg : ConsolidationSuggestion :=
  { id := "s1", main_category := "A", suggested_move := some c4Move }

/-- State in which the C4 proposal is pending. -/
def c4State : AppState :=
  { papers := [samplePaper], apiKey := "k", consolidationSuggestions := some [c4Sugg] }

/-- A later service response that proposes the same move again. -/
def c4Resp : ConsolidationResult :=
  { status := "suggestions_made"
    suggestions := [{ main_category := "A", suggested_move := some c4Move }] }

/-! ## Input cleaning (`cleanRawText`, App.tsx lines 238-256) -/

/-- One global, non-overlapping, left-to-right substring replacement, as
JS `String.prototype.replace` with a global literal pattern performs. -/
def replaceAllL (pat rep : List Char) : Nat → List Char → List Char
  | 0, s => s
  | fuel + 1, s =>
    match s with
    | [] => []
    | c :: rest =>
      if pat ≠ [] ∧ pat.isPrefixOf s then
        rep ++ replaceAllL pat rep fuel (s.drop pat.length)
      else c :: replaceAllL pat rep fuel rest

/-- The character class of the fifth replacement of `cleanRawText`
(various unicode spaces mapped to a plain space). -/
def isWideSpace (c : Char) : Bool :=
  c.toNat = 0xA0 || c.toNat = 0x1680 || c.toNat = 0x180E ||
  (0x2000 ≤ c.toNat && c.toNat ≤ 0x200B) ||
  c.toNat = 0x202F || c.toNat = 0x205F || c.toNat = 0x3000 || c.toNat = 0xFEFF

/-- `cleanRawText` on the character list, replacement by replacement in
source order (including the source's dead later patterns, e.g. `Ã±` after
every `Ã` was already replaced). -/
def cleanRawTextL (l : List Char) : List Char :=
  let l := l.map (fun c => if c.toNat = 0x2018 || c.toNat = 0x2019 then '\x27' else c)
  let l := l.map (fun c => if c.toNat = 0x201C || c.toNat = 0x201D then '"' else c)
  let l := l.map (fun c => if c.toNat = 0x2013 || c.toNat = 0x2014 then '-' else c)
  let l := l.filter (fun c => c.toNat ≠ 0xFFFD)
  let l := l.map (fun c => if isWideSpace c then ' ' else c)
  let l := replaceAllL "â€™".data "\x27".data l.length l
  let l := replaceAllL "â€œ".data "\"".data l.length l
  let l := replaceAllL "â€".data "\"".data l.length l
  let l := replaceAllL "â€“".data "-".data l.length l
  let l := replaceAllL "â€”".data "-".data l.length l
  let l := replaceAllL "Ã©".data "é".data l.length l
  let l := l.map (fun c => if c.toNat = 0xC3 then 'à' else c)
  let l := replaceAllL "Ã±".data "ñ".data l.length l
  let l := replaceAllL "Ã¼".data "ü".data l.length l
  let l := l.map (fun c => if c.toNat = 0xC3 || c.toNat = 0xC2 || c.toNat = 0x192 then ' ' else c)
  replaceAllL "\r\n".data "\n".data l.length l

/-- `cleanRawText` from App.tsx. -/
def cleanRawText (text : String) : String := (cleanRawTextL text.data).asString

/-! ## Extraction pipeline (App.tsx lines 1721-1919)

`analyzeWithGemini`'s result for a given batch text is abstracted at the
pipeline level into a per-text outcome oracle `svc`; the retry behaviour
inside one `analyzeWithGemini` call is modelled separately (see
`analyzeLoop`).  `Date.now()` is the oracle `time`, applied to the batch
counter and the entry index. -/

/-- One entry of the extraction service's structured response
(`AnalysisResult.papers` element); `""` models an absent field, matching
the falsy test of the JS `||` defaulting. -/
structure RawPaper where
  title : String := ""
  authors : String := ""
  year : String := ""
  journal : String := ""
  abstract_summary : String := ""
  main_category : String := ""
  sub_theme : String := ""
  driver_variable : String := ""
  response_variable : String := ""
  effect_direction : String := ""
  study_location : String := ""
  study_species : String := ""
  key_finding : String := ""
  impact_keywords : String := ""
  short_citation : String := ""
deriving DecidableEq

/-- Final outcome of one `analyzeWithGemini` call for a batch text:
structured success, a parse failure that triggers the manual-fix pause,
or a propagated fatal error (quota, credentials, exhausted retries,
unclassified). -/
inductive SvcOutcome where
  | ok (papers : List RawPaper) (truncated : Bool)
  | parseFailure
  | fatal
deriving DecidableEq

/-- The Result Merger of one successful batch (lines 1783-1804): map the
response entries to uniquely identified records.  JS
`result.papers.map((p, idx) => …)` with an explicit index. -/
def buildPapers (mk : Nat → RawPaper → Paper) : Nat → List RawPaper → List Paper
  | _, [] => []
  | idx, p :: rest => mk idx p :: buildPapers mk (idx + 1) rest

/-- Record built for entry `idx` of the batch with counter `counter`
during `handleProcessAll` (lines 1783-1804). -/
def mkPaperBatch (counter idx now : Nat) (modelId : String) (p : RawPaper) : Paper :=
  { id := mkPaperId false counter idx now
    title := p.title
    abstractSnippet := p.abstract_summary
    category := p.main_category
    theme := p.sub_theme
    driver := jsOr p.driver_variable "Unspecified"
    driverGroup := jsOr p.driver_variable "Unspecified"
    response := jsOr p.response_variable "Unspecified"
    responseGroup := jsOr p.response_variable "Unspecified"
    effectDirection := jsOr p.effect_direction "Unclear"
    location := jsOr p.study_location "Unspecified"
    species := jsOr p.study_species "Unspecified"
    keyFinding := p.key_finding
    impactKeywords := p.impact_keywords
    batchId := counter
    authors := p.authors
    year := p.year
    journal := p.journal
    shortCitation := p.short_citation
    modelUsed := modelId }

/-- Record built for entry `idx` during `handleManualFixSave` (lines
1887-1908): the id template uses the current `batchCount` with a
`-fixed-` marker, while the `batchId` field is `batchCount + 1`. -/
def mkPaperFixed (batchCount idx now : Nat) (modelId : String) (p : RawPaper) : Paper :=
  { mkPaperBatch batchCount idx now modelId p with
    id := mkPaperId true batchCount idx now
    batchId := batchCount + 1 }

/-- Result of the batch loop of `handleProcessAll`, carrying the
committed React state at exit and, for a completed loop, the local
`accumulatedPapers` of the run. -/
inductive LoopResultW where
  | finished (accumulated : List Paper) (st : AppState)
  | pausedForFix (st : AppState) (text : String) (batchIndex : Nat)
  | stopped (st : AppState)
  | errored (st : AppState)
deriving DecidableEq

/-- The `for` loop of `handleProcessAll` (lines 1746-1818).  `papers` and
`counter` mirror the local `accumulatedPapers` and `localBatchCounter`
(initialised from the render closure by the caller, lines 1741-1742),
while `cur` is the committed React state: each successful iteration
overwrites its `papers` and `batchCount` with the locals (the
non-functional `setPapers(accumulatedPapers)` at line 1807 and
`setBatchCount(localBatchCounter)` at line 1816); the stop check, a parse
failure (which pauses carrying the original batch text, before any write
of this iteration) and a fatal error leave `cur` as last written. -/
def processLoopW (svc : String → SvcOutcome) (time : Nat → Nat → Nat) (modelId : String)
    (stop : Nat → Bool) (batches : List String) (i : Nat)
    (papers : List Paper) (counter : Nat) (cur : AppState) : LoopResultW :=
  if h : i < batches.length then
    if stop i then .stopped cur
    else
      match svc batches[i] with
      | .parseFailure => .pausedForFix cur batches[i] i
      | .fatal => .errored cur
      | .ok raws _ =>
        let c := counter + 1
        let newPapers := buildPapers (fun idx p => mkPaperBatch c idx (time c idx) modelId p) 0 raws
        let acc := papers ++ newPapers
        processLoopW svc time modelId stop batches (i + 1) acc c
          { cur with papers := acc, batchCount := c }
  else .finished papers cur
termination_by batches.length - i
decreasing_by simp_wf; omega

/-- One fix returned by the audit service. -/
structure AuditFix where
  original_category : String
  original_theme : String
  new_category : String
  new_theme : String
  reason : String
deriving DecidableEq

/-- The deduplicated "category ||| theme" list sent to the audit service
(lines 1824-1827; a JS `Set` keeps insertion order). -/
def buildTaxonomyList (papers : List Paper) : List String :=
  papers.foldl (fun acc p =>
    let k := p.category ++ " ||| " ++ p.theme
    if acc.contains k then acc else acc ++ [k]) []

/-- Apply audit fixes to records by exact (category, theme) match
(lines 1835-1842). -/
def applyAuditFixes (fixes : List AuditFix) (papers : List Paper) : List Paper :=
  papers.map (fun p =>
    match fixes.find? (fun f => f.original_category == p.category &&
        f.original_theme == p.theme) with
    | some f => { p with category := f.new_category, theme := f.new_theme }
    | none => p)

/-- The auto-audit epilogue of `handleProcessAll` (lines 1820-1851): on
a completed, unstopped loop with a nonempty `accumulatedPapers`, audit
the accumulated records of this run; only when the auditor returns fixes
is the corpus overwritten (`setPapers(finalPapers)`, line 1843, built
from the run-local list); the input box is cleared in both cases. -/
def finishAudit (audit : List String → List AuditFix) (accumulated : List Paper)
    (st : AppState) : AppState :=
  let st2 :=
    if accumulated ≠ [] then
      let fixes := audit (buildTaxonomyList accumulated)
      let st3 :=
        if fixes ≠ [] then { st with papers := applyAuditFixes fixes accumulated }
        else st
      { st3 with isOptimized := true }
    else st
  { st2 with inputText := "" }

/-- `handleProcessAll` with the render closure (`closure`) separated from
the committed React state (`cur`): every read — the input-text and API-key
guards, the batch list, and the initial `accumulatedPapers` /
`localBatchCounter` (lines 1722-1742) — comes from the closure of the
render that created the handler, while every `set*` write lands on the
current state.  `audit` is the oracle for `auditTaxonomyWithGemini`
(whose own bounded retry degrades to an empty fix list, which the oracle
can also return).  In a fresh run closure and state coincide; the resume
call inside `handleManualFixSave` (line 1912) passes the stale
pause-render closure. -/
def handleProcessAllW (svc : String → SvcOutcome) (audit : List String → List AuditFix)
    (time : Nat → Nat → Nat) (modelId : String) (stop : Nat → Bool)
    (resumeFromIndex : Nat) (resumeText : String) (closure cur : AppState) : AppState :=
  if jsTrim closure.inputText = "" ∧ resumeText = "" then cur
  else if closure.apiKey = "" then cur
  else
    let cur := { cur with consolidationSuggestions := none, isConsolidationComplete := false }
    let cleanedText := cleanRawText (jsOr resumeText closure.inputText)
    let textBatches := createBatches cleanedText 25000
    match processLoopW svc time modelId stop textBatches resumeFromIndex
        closure.papers closure.batchCount cur with
    | .pausedForFix st text bidx => { st with manualFixState := some (text, bidx) }
    | .errored st => st
    | .stopped st => { st with inputText := "" }
    | .finished accumulated st => finishAudit audit accumulated st

/-- `handleProcessAll` invoked from its own render (the Start-Extraction
path): closure and committed state coincide. -/
def handleProcessAll (svc : String → SvcOutcome) (audit : List String → List AuditFix)
    (time : Nat → Nat → Nat) (modelId : String) (stop : Nat → Bool)
    (resumeFromIndex : Nat) (resumeText : String) (st : AppState) : AppState :=
  handleProcessAllW svc audit time modelId stop resumeFromIndex resumeText st st

/-- The committed state right after `handleManualFixSave` merges the
repaired batch (lines 1874 and 1909-1910): the modal is closed, the
fixed records — ids built from the stale render `batchCount` (line 1888)
with the `-fixed-` marker, `batchId` one above it — are appended by the
functional `setPapers(prev => ...)`, and the batch counter is
incremented by the functional `setBatchCount(prev => prev + 1)`.  On a
failed analysis the modal is restored with the edited text. -/
def manualFixCommitted (svc : String → SvcOutcome) (time : Nat → Nat → Nat)
    (modelId : String) (newText : String) (st : AppState) : AppState :=
  let resumeIndex := (st.manualFixState.map Prod.snd).getD 0
  let st1 := { st with manualFixState := none }
  match svc newText with
  | .ok raws _ =>
    let newPapers := buildPapers
      (fun idx p => mkPaperFixed st.batchCount idx (time st.batchCount idx) modelId p) 0 raws
    { st1 with papers := st1.papers ++ newPapers, batchCount := st1.batchCount + 1 }
  | _ => { st1 with manualFixState := some (newText, resumeIndex) }

/-- `handleManualFixSave` (lines 1872-1919): analyze the human-corrected
text, commit the fixed records and the incremented counter, then resume
`handleProcessAll` at the next index — through the handler of the *same
render* (line 1912), whose closure still holds the pre-fix `papers` and
`batchCount`; the resumed run therefore rebuilds its accumulator from
the stale closure and its first committed write drops the fixed batch
from the corpus. -/
def handleManualFixSave (svc : String → SvcOutcome) (audit : List String → List AuditFix)
    (time : Nat → Nat → Nat) (modelId : String) (stop : Nat → Bool)
    (newText : String) (st : AppState) : AppState :=
  let resumeIndex := (st.manualFixState.map Prod.snd).getD 0
  match svc newText with
  | .ok _ _ =>
    handleProcessAllW svc audit time modelId stop (resumeIndex + 1) "" st
      (manualFixCommitted svc time modelId newText st)
  | _ => { st with manualFixState := some (newText, resumeIndex) }

/-! ## Retry policy of `analyzeWithGemini` (lines 457-546) and the error
classifier of `fetchAI` (lines 374-394) -/

/-- Error kinds thrown below `analyzeWithGemini`'s catch block,
mirroring `ApiKeyError`, `QuotaExceededError`, `RetryableError` (429
rate limit / 503 overload) and the two generic `Error` shapes: the
malformed-JSON error of `safeJsonParse` and anything else. -/
inductive AErr where
  | apiKeyErr
  | quotaErr
  | rateLimited
  | overloaded
  | malformed
  | otherErr
deriving DecidableEq

/-- `error.name === "RetryableError" || error.message.includes("Overloaded")`. -/
def isRetryableErr : AErr → Bool
  | .rateLimited => true
  | .overloaded => true
  | _ => false

/-- `error.name === "QuotaExceededError" || error.name === "ApiKeyError"`. -/
def isFatalErr : AErr → Bool
  | .quotaErr => true
  | .apiKeyErr => true
  | _ => false

/-- `error.message.includes("malformed data") || error.message.includes("JSON")`. -/
def isMalformedErr : AErr → Bool
  | .malformed => true
  | _ => false

/-- The error classifier of `fetchAI` applied to a failed HTTP response:
status 400/403 → credentials, 503 → overloaded, 429 → quota exhausted if
the message mentions a quota, else short-term rate limiting; everything
else propagates unclassified. -/
def classifyFetchError (status : Nat) (messageHasQuotaWord : Bool) : AErr :=
  if status = 400 ∨ status = 403 then .apiKeyErr
  else if status = 503 then .overloaded
  else if status = 429 then (if messageHasQuotaWord then .quotaErr else .rateLimited)
  else .otherErr

/-- Outcome of one service attempt inside `analyzeWithGemini`. -/
inductive AttemptOutcome where
  | ok (result : List RawPaper) (truncated : Bool)
  | err (e : AErr)
deriving DecidableEq

deriving instance DecidableEq for Except

/-- Observable behaviour of one `analyzeWithGemini` call: the final
result, the recorded backoff delays (milliseconds) and the number of
service calls made. -/
structure AnalyzeRun where
  result : Except AErr (List RawPaper × Bool)
  delays : List Nat
  calls : Nat
deriving DecidableEq

/-- `const maxRetries = 6` of `analyzeWithGemini`. -/
def maxRetries : Nat := 6

/-- The `while (true)` retry loop of `analyzeWithGemini`; `svc r` is the
outcome of the attempt made with `retries = r`, `jitter r` models
`Math.random() * 1000` of that retry's delay.  A malformed-data error is
rethrown at once; a retryable (or non-fatal, below-ceiling) error sleeps
`2^retries * 1000 + jitter` after `retries++` and loops; everything else
propagates. -/
def analyzeLoop (svc : Nat → AttemptOutcome) (jitter : Nat → Nat)
    (retries : Nat) (delays : List Nat) (calls : Nat) : AnalyzeRun :=
  match svc retries with
  | .ok result truncated =>
    { result := .ok (result, truncated), delays := delays, calls := calls + 1 }
  | .err e =>
    if isMalformedErr e then { result := .error e, delays := delays, calls := calls + 1 }
    else if isRetryableErr e || (!isFatalErr e && decide (retries < maxRetries)) then
      if h : retries < maxRetries then
        analyzeLoop svc jitter (retries + 1)
          (delays ++ [2 ^ (retries + 1) * 1000 + jitter (retries + 1)]) (calls + 1)
      else { result := .error e, delays := delays, calls := calls + 1 }
    else { result := .error e, delays := delays, calls := calls + 1 }
termination_by maxRetries - retries
decreasing_by simp_wf; omega

/-- One `analyzeWithGemini` call, starting with `retries = 0`. -/
def analyzeWithGemini (svc : Nat → AttemptOutcome) (jitter : Nat → Nat) : AnalyzeRun :=
  analyzeLoop svc jitter 0 [] 0

/-! ## Term Normalizer (`handleOptimizeTerms`, lines 1661-1719) and
drag-and-drop structure edits (`handleDrop`, lines 1603-1659) -/

/-- One entry of the optimization service's `moves` array; `""` models an
absent optional field. -/
structure OptMove where
  paper_id : String
  new_category : String := ""
  new_theme : String := ""
  new_driver : String := ""
  new_driver_group : String := ""
  new_response : String := ""
  new_response_group : String := ""
  new_location : String := ""
  new_species : String := ""
deriving DecidableEq

/-- Apply one optimization move to a record (lines 1683-1698). -/
def applyOptMove (m : OptMove) (p : Paper) : Paper :=
  { p with
    driver := jsOr m.new_driver p.driver
    response := jsOr m.new_response p.response
    location := jsOr m.new_location p.location
    species := jsOr m.new_species p.species
    driverGroup := jsOr m.new_driver_group (jsOr m.new_driver p.driver)
    responseGroup := jsOr m.new_response_group (jsOr m.new_response p.response)
    category := jsOr m.new_category p.category
    theme := jsOr m.new_theme p.theme }

/-- `handleOptimizeTerms` given the service's move list (the JS `Map`
keyed by `paper_id` keeps the last entry, hence `reverse.find?`). -/
def handleOptimizeTerms (moves : List OptMove) (st : AppState) : AppState :=
  if st.apiKey = "" ∨ st.papers = [] then st
  else
    let papers :=
      if moves ≠ [] then
        st.papers.map (fun p =>
          match moves.reverse.find? (fun m => m.paper_id == p.id) with
          | some m => applyOptMove m p
          | none => p)
      else st.papers
    { st with
      papers := papers
      isTermsNormalized := true
      isDriverGrouped := true
      isResponseGrouped := true }

/-- A dragged or drop-target item of the list view. -/
inductive DragItem where
  | cat (name : String)
  | theme (name : String) (parentCat : String)
deriving DecidableEq

/-- `handleDrop`: move a theme into a category, merge a theme into a
theme, or merge a category into a category. -/
def handleDrop (st : AppState) (dragged target : DragItem) : AppState :=
  match dragged, target with
  | .theme dn dp, .cat tn =>
    if dp = tn then st
    else
      { st with
        papers := st.papers.map (fun p =>
          if p.category = dp ∧ p.theme = dn then { p with category := tn } else p)
        isOptimized := true }
  | .theme dn dp, .theme tn tp =>
    if dn = tn ∧ dp = tp then st
    else
      { st with
        papers := st.papers.map (fun p =>
          if p.category = dp ∧ p.theme = dn then { p with category := tp, theme := tn }
          else p)
        isOptimized := true }
  | .cat dn, .cat tn =>
    if dn = tn then st
    else
      { st with
        papers := st.papers.map (fun p =>
          if p.category = dn then { p with category := tn } else p)
        isOptimized := true }
  | .cat _, .theme _ _ => st

/-! ## Corpus operations and the identifier invariant (claim C8) -/

/-- Sum of response-entry counts of the batches `i ≤ j < N`. -/
def sumRawLens (raws : Nat → List RawPaper) (i N : Nat) : Nat :=
  if i < N then (raws i).length + sumRawLens raws (i + 1) N else 0
termination_by N - i
decreasing_by simp_wf; omega

/-- A record id is well formed w.r.t. the batch counter `bc`: it decodes
to a counter at most `bc` (strictly below `bc` for a `-fixed-` id, since
the counter is incremented right after a manual fix merges). -/
def idOkB (bc : Nat) (s : String) : Bool :=
  match idParts s with
  | some (k, c, _, _) => decide (c ≤ bc) && (!k || decide (c < bc))
  | none => false

/-- The batch list a fresh `handleProcessAll` run derives from the
current input (`resumeText = ""`, so `jsOr` selects `inputText`). -/
def startBatches (st : AppState) : List String :=
  createBatches (cleanRawText st.inputText) 25000

/-- Concrete state for the C5 witness: one committed record in the
corpus, and a two-character input that forms a single batch. -/
def c5State : AppState :=
  { apiKey := "k"
    inputText := "hi"
    papers := [samplePaper]
    batchCount := 1 }

/-- Concrete extraction oracle for the C5 witness: the original batch
text cannot be decoded, the human-corrected text decodes to one record. -/
def c5Svc : String → SvcOutcome :=
  fun s => if s = "fixed" then SvcOutcome.ok [{}] false else SvcOutcome.parseFailure

/-- Concrete audit oracle for the C5 witness: always returns a fix, so
the resumed finalization pass overwrites the corpus. -/
def c5Audit : List String → List AuditFix :=
  fun _ =>
    [{ original_category := "Heat Stress"
       original_theme := "T"
       new_category := "Heat"
       new_theme := "T"
       reason := "merge" }]

/-- Concrete paused state for the C8 witness: the pipeline is suspended
on batch 0 of a one-batch input, with one committed record. -/
def c8Paused : AppState :=
  { apiKey := "k"
    inputText := "hi"
    papers := [samplePaper]
    batchCount := 1
    manualFixState := some ("orig", 0) }

/-- Concrete extraction oracle for the C8 witness. -/
def c8Svc : String → SvcOutcome :=
  fun s => if s = "mended" then SvcOutcome.ok [{}] false else SvcOutcome.parseFailure

/-- Concrete audit oracle for the C8 witness: always returns a fix. -/
def c8Audit : List String → List AuditFix :=
  fun _ =>
    [{ original_category := "Heat Stress"
       original_theme := "T"
       new_category := "Warming"
       new_theme := "T"
       reason := "merge" }]

end EcoSynth

/-! # Theorems -/

namespace EcoSynth

/-! ## Text Segmenter properties (claim C7) -/

theorem trimL_decomp (l : List Char) :
    ∃ lead trail, (∀ c ∈ lead, isJsWs c = true) ∧ (∀ c ∈ trail, isJsWs c = true) ∧
      l = lead ++ (trimL l ++ trail) := by
  refine ⟨l.takeWhile isJsWs, ((l.dropWhile isJsWs).reverse.takeWhile isJsWs).reverse,
    fun c hc => List.mem_takeWhile_imp hc, ?_, ?_⟩
  · intro c hc
    exact List.mem_takeWhile_imp (List.mem_reverse.mp hc)
  · conv_lhs => rw [← List.takeWhile_append_dropWhile isJsWs l]
    congr 1
    unfold trimL dropTrailingWs
    set m := l.dropWhile isJsWs with hm
    have : m.reverse.takeWhile isJsWs ++ m.reverse.dropWhile isJsWs = m.reverse :=
      List.takeWhile_append_dropWhile isJsWs m.reverse
    calc m = m.reverse.reverse := (List.reverse_reverse m).symm
    _ = (m.reverse.takeWhile isJsWs ++ m.reverse.dropWhile isJsWs).reverse := by rw [this]
    _ = (m.reverse.dropWhile isJsWs).reverse ++ (m.reverse.takeWhile isJsWs).reverse := by
          rw [List.reverse_append]

theorem trimL_length_le (l : List Char) : (trimL l).length ≤ l.length := by
  unfold trimL dropTrailingWs
  have h1 : (l.dropWhile isJsWs).length ≤ l.length :=
    (List.dropWhile_sublist (p := isJsWs) (l := l)).length_le
  have h2 : ((l.dropWhile isJsWs).reverse.dropWhile isJsWs).length ≤
      (l.dropWhile isJsWs).reverse.length :=
    (List.dropWhile_sublist _).length_le
  simpa using le_trans (by simpa using h2) h1

theorem trimL_length_lt_of_head_ws (c : Char) (rest : List Char) (hws : isJsWs c = true) :
    (trimL (c :: rest)).length < (c :: rest).length := by
  unfold trimL
  have hdrop : (c :: rest).dropWhile isJsWs = rest.dropWhile isJsWs := by
    simp [List.dropWhile, hws]
  rw [hdrop]
  have h1 : (dropTrailingWs (rest.dropWhile isJsWs)).length ≤ (rest.dropWhile isJsWs).length := by
    unfold dropTrailingWs
    simpa using (List.dropWhile_sublist (p := isJsWs) (l := (rest.dropWhile isJsWs).reverse)).length_le
  have h2 : (rest.dropWhile isJsWs).length ≤ rest.length :=
    (List.dropWhile_sublist (p := isJsWs) (l := rest)).length_le
  calc (dropTrailingWs (rest.dropWhile isJsWs)).length ≤ rest.length := le_trans h1 h2
  _ < (c :: rest).length := by simp

theorem cbCut_le (maxC : Nat) (rem : List Char) : cbCut maxC rem ≤ maxC := by
  unfold cbCut lastIndexOfLe
  split
  · next i h =>
    have := List.mem_reverse.mp (List.mem_of_find?_eq_some h)
    exact Nat.lt_succ_iff.mp (List.mem_range.mp this)
  · split
    · next i h =>
      have := List.mem_reverse.mp (List.mem_of_find?_eq_some h)
      exact Nat.lt_succ_iff.mp (List.mem_range.mp this)
    · exact le_refl _

theorem cbCut_zero_head_newline (maxC : Nat) (rem : List Char)
    (h : cbCut maxC rem = 0) (hm : 1 ≤ maxC) :
    ∃ rest, rem = '\n' :: rest := by
  unfold cbCut at h
  revert h
  split
  · next i hfind =>
    intro h; subst h
    have hp := List.find?_some hfind
    have hpre : (['\n', '\n'] : List Char).isPrefixOf (rem.drop 0) = true := hp
    rw [List.drop_zero] at hpre
    rcases List.isPrefixOf_iff_prefix.mp hpre with ⟨t, ht⟩
    exact ⟨'\n' :: t, by simpa using ht.symm⟩
  · split
    · next i hfind =>
      intro h; subst h
      have hp := List.find?_some hfind
      have hpre : (['\n'] : List Char).isPrefixOf (rem.drop 0) = true := hp
      rw [List.drop_zero] at hpre
      rcases List.isPrefixOf_iff_prefix.mp hpre with ⟨t, ht⟩
      exact ⟨t, by simpa using ht.symm⟩
    · intro h
      omega

theorem cbGo_spec (maxC : Nat) (hmax : 1 ≤ maxC) :
    ∀ fuel rem, rem.length < fuel →
      ChunksReassemble (cbGo maxC fuel rem) rem ∧
        ∀ c ∈ cbGo maxC fuel rem, c.length ≤ maxC := by
  intro fuel
  induction fuel with
  | zero => intro rem h; omega
  | succ f ih =>
    intro rem hlen
    by_cases h0 : rem.length = 0
    · have : rem = [] := List.length_eq_zero.mp h0
      subst this
      simp only [cbGo, List.length_nil]
      exact ⟨ChunksReassemble.nil, by simp⟩
    · by_cases hsmall : rem.length ≤ maxC
      · simp only [cbGo, h0, if_false, hsmall, if_true]
        exact ⟨ChunksReassemble.single rem, by intro c hc; simp at hc; subst hc; exact hsmall⟩
      · have hbig : maxC < rem.length := Nat.lt_of_not_le hsmall
        simp only [cbGo, h0, if_false, hsmall, if_true]
        set cut := cbCut maxC rem with hcut
        have hcutle : cut ≤ maxC := cbCut_le maxC rem
        -- progress: the trimmed rest is strictly shorter than `rem`
        have hprog : (trimL (rem.drop cut)).length < rem.length := by
          by_cases hc0 : cut = 0
          · rcases cbCut_zero_head_newline maxC rem (hcut ▸ hc0) hmax with ⟨rest, hrest⟩
            rw [hc0, List.drop_zero, hrest]
            exact trimL_length_lt_of_head_ws '\n' rest (by decide)
          · have h1 : (rem.drop cut).length = rem.length - cut := List.length_drop cut rem
            have h2 : (trimL (rem.drop cut)).length ≤ rem.length - cut :=
              h1 ▸ trimL_length_le (rem.drop cut)
            omega
        rcases trimL_decomp (rem.drop cut) with ⟨lead, trail, hlead, htrail, hdec⟩
        rcases ih (trimL (rem.drop cut)) (by omega) with ⟨ihr, ihb⟩
        constructor
        · have hEq : rem = rem.take cut ++ (lead ++ (trimL (rem.drop cut) ++ trail)) := by
            conv_lhs => rw [← List.take_append_drop cut rem, hdec]
          have hcr : ChunksReassemble
              (rem.take cut :: cbGo maxC f (trimL (rem.drop cut)))
              (rem.take cut ++ (lead ++ (trimL (rem.drop cut) ++ trail))) := by
            have := ChunksReassemble.cons (rem.take cut) lead (trimL (rem.drop cut)) trail
              (cbGo maxC f (trimL (rem.drop cut))) hlead htrail ihr
            simpa [List.append_assoc] using this
          nth_rewrite 3 [hEq]
          exact hcr
        · intro c hc
          rcases List.mem_cons.mp hc with hc | hc
          · subst hc
            calc (rem.take cut).length ≤ cut := by simp [List.length_take]
            _ ≤ maxC := hcutle
          · exact ihb c hc

/-- C7 (amended: the maximum chunk size must be positive; the source loop
never terminates on e.g. `createBatches("ab", 0)`, see the counterexample):
for every input text and every positive maximum chunk size, the chunks
produced by `createBatches` reassemble — interleaved only with whitespace
trimmed at chunk boundaries — to the input text, and no chunk's length
exceeds the maximum (the hard-cut fallback produces chunks of exactly the
maximum length, so it never exceeds it either). -/
theorem C7_createBatches_reassembles_and_bounded (text : String) (maxChunkSize : Nat)
    (hmax : 1 ≤ maxChunkSize) :
    ChunksReassemble ((createBatches text maxChunkSize).map String.data) text.data ∧
      ∀ b ∈ createBatches text maxChunkSize, b.data.length ≤ maxChunkSize := by
  have hdata : ∀ l : List (List Char), (l.map List.asString).map String.data = l := by
    intro l
    induction l with
    | nil => rfl
    | cons x xs ihx => simp [ihx]; rfl
  rcases cbGo_spec maxChunkSize hmax (text.data.length + 1) text.data (by omega) with ⟨h1, h2⟩
  constructor
  · unfold createBatches
    rw [hdata]
    exact h1
  · intro b hb
    unfold createBatches at hb
    rcases List.mem_map.mp hb with ⟨l, hl, hbl⟩
    have : b.data = l := by rw [← hbl]; rfl
    rw [this]
    exact h2 l hl

/-- C7 witness: the amended segmenter property at the concrete input
`"a b"` with maximum chunk size 3. -/
theorem C7_witness :
    1 ≤ 3 ∧
      (ChunksReassemble ((createBatches "a b" 3).map String.data) "a b".data ∧
        ∀ b ∈ createBatches "a b" 3, b.data.length ≤ 3) :=
  ⟨by decide, C7_createBatches_reassembles_and_bounded "a b" 3 (by decide)⟩

theorem reassemble_all_empty_ws (cs : List (List Char)) (s : List Char)
    (h : ChunksReassemble cs s) (hemp : ∀ c ∈ cs, c = []) :
    ∀ ch ∈ s, isJsWs ch = true := by
  induction h with
  | nil => intro ch hch; simp at hch
  | single c =>
    intro ch hch
    have : c = [] := hemp c (by simp)
    subst this; simp at hch
  | cons c lead s' trail cs' hlead htrail _ ihr =>
    intro ch hch
    have hc : c = [] := hemp c (by simp)
    subst hc
    simp only [List.nil_append, List.mem_append] at hch
    rcases hch with (hch | hch) | hch
    · exact hlead ch hch
    · exact ihr (fun x hx => hemp x (by simp [hx])) ch hch
    · exact htrail ch hch

/-- C7 counterexample: with maximum chunk size 0 and input "ab" the source
loop makes no progress — the chosen cut is 0, the emitted chunk is empty and
the trimmed rest equals the input again, so the JS `while` loop never
terminates (the fuelled embedding emits only empty chunks, which cannot
reassemble to "ab"). -/
theorem C7_counterexample_max_zero :
    cbCut 0 "ab".data = 0 ∧
      "ab".data.take (cbCut 0 "ab".data) = [] ∧
      trimL ("ab".data.drop (cbCut 0 "ab".data)) = "ab".data ∧
      ¬ ChunksReassemble ((createBatches "ab" 0).map String.data) "ab".data := by
  refine ⟨by decide, by decide, by decide, ?_⟩
  intro h
  have hemp : ∀ c ∈ (createBatches "ab" 0).map String.data, c = [] := by decide
  have := reassemble_all_empty_ws _ _ h hemp 'a' (by decide)
  simp [isJsWs] at this

/-! ## Decimal digit strings and id decoding -/

theorem takeWhile_append_all {α : Type} {p : α → Bool} (l1 l2 : List α)
    (h1 : ∀ c ∈ l1, p c = true) :
    (l1 ++ l2).takeWhile p = l1 ++ l2.takeWhile p ∧
      (l1 ++ l2).dropWhile p = l2.dropWhile p := by
  induction l1 with
  | nil => simp
  | cons a l ihl =>
    have ha : p a = true := h1 a (by simp)
    have := ihl (fun c hc => h1 c (by simp [hc]))
    simp [List.takeWhile, List.dropWhile, ha, this.1, this.2]

theorem takeWhile_nil_of_head_false {α : Type} {p : α → Bool} (l : List α)
    (h : ∀ a t, l = a :: t → p a = false) :
    l.takeWhile p = [] ∧ l.dropWhile p = l := by
  cases l with
  | nil => simp
  | cons a t => simp [List.takeWhile, List.dropWhile, h a t rfl]

theorem digitChar_isDigit (m : Nat) (h : m < 10) : (Nat.digitChar m).isDigit = true := by
  interval_cases m <;> decide

theorem digitVal_digitChar (m : Nat) (h : m < 10) : digitVal (Nat.digitChar m) = m := by
  interval_cases m <;> decide

theorem toDigitsCore_acc (f : Nat) : ∀ (n : Nat) (acc : List Char),
    Nat.toDigitsCore 10 f n acc = Nat.toDigitsCore 10 f n [] ++ acc := by
  induction f with
  | zero => intro n acc; simp [Nat.toDigitsCore]
  | succ f ihf =>
    intro n acc
    simp only [Nat.toDigitsCore]
    by_cases h : n / 10 = 0
    · simp [h]
    · simp only [h, if_false]
      rw [ihf (n / 10) (Nat.digitChar (n % 10) :: acc),
        ihf (n / 10) [Nat.digitChar (n % 10)]]
      simp

theorem toDigitsCore_fuel (n : Nat) : ∀ f g (acc : List Char), n < f → n < g →
    Nat.toDigitsCore 10 f n acc = Nat.toDigitsCore 10 g n acc := by
  induction n using Nat.strong_induction_on with
  | _ n ihn =>
    intro f g acc hf hg
    match f, g with
    | f' + 1, g' + 1 =>
      simp only [Nat.toDigitsCore]
      by_cases h : n / 10 = 0
      · simp [h]
      · simp only [h, if_false]
        have hn0 : 0 < n := by
          rcases Nat.eq_zero_or_pos n with h0 | h0
          · subst h0; simp at h
          · exact h0
        have hlt : n / 10 < n := Nat.div_lt_self hn0 (by omega)
        exact ihn (n / 10) hlt f' g' _ (by omega) (by omega)

theorem toDigits_small (n : Nat) (h : n < 10) : Nat.toDigits 10 n = [Nat.digitChar n] := by
  simp only [Nat.toDigits, Nat.toDigitsCore]
  rw [Nat.div_eq_of_lt h]
  simp [Nat.mod_eq_of_lt h]

theorem toDigits_step (n : Nat) (h : 10 ≤ n) :
    Nat.toDigits 10 n = Nat.toDigits 10 (n / 10) ++ [Nat.digitChar (n % 10)] := by
  have hne : n / 10 ≠ 0 := by
    intro h0
    have := Nat.div_eq_of_lt (show n < 10 by omega)
    omega
  have h1 : Nat.toDigits 10 n = Nat.toDigitsCore 10 n (n / 10) [Nat.digitChar (n % 10)] := by
    simp [Nat.toDigits, Nat.toDigitsCore, hne]
  rw [h1, toDigitsCore_acc]
  have hlt : n / 10 < n := Nat.div_lt_self (by omega) (by omega)
  rw [toDigitsCore_fuel (n / 10) n (n / 10 + 1) [] hlt (by omega)]
  rfl

theorem toDigits_all_digits (n : Nat) : ∀ c ∈ Nat.toDigits 10 n, c.isDigit = true := by
  induction n using Nat.strong_induction_on with
  | _ n ihn =>
    by_cases h : n < 10
    · rw [toDigits_small n h]
      intro c hc
      simp at hc
      subst hc
      exact digitChar_isDigit n h
    · rw [toDigits_step n (by omega)]
      intro c hc
      rcases List.mem_append.mp hc with hc | hc
      · exact ihn (n / 10) (Nat.div_lt_self (by omega) (by omega)) c hc
      · simp at hc
        subst hc
        exact digitChar_isDigit _ (Nat.mod_lt n (by omega))

theorem toDigits_ne_nil (n : Nat) : Nat.toDigits 10 n ≠ [] := by
  by_cases h : n < 10
  · rw [toDigits_small n h]; simp
  · rw [toDigits_step n (by omega)]; simp

theorem foldl_toDigits (n : Nat) : ∀ a : Nat,
    (Nat.toDigits 10 n).foldl (fun a c => 10 * a + digitVal c) a =
      a * 10 ^ (Nat.toDigits 10 n).length + n := by
  induction n using Nat.strong_induction_on with
  | _ n ihn =>
    intro a
    by_cases h : n < 10
    · rw [toDigits_small n h]
      simp [List.foldl, digitVal_digitChar n h]
      ring
    · rw [toDigits_step n (by omega)]
      rw [List.foldl_append]
      have hlt : n / 10 < n := Nat.div_lt_self (by omega) (by omega)
      rw [ihn (n / 10) hlt a]
      simp only [List.foldl, List.length_append, List.length_singleton]
      rw [digitVal_digitChar _ (Nat.mod_lt n (by omega))]
      have : n = 10 * (n / 10) + n % 10 := (Nat.div_add_mod n 10).symm
      rw [pow_succ]
      ring_nf
      omega

theorem decValue_toDigits (n : Nat) : decValue (Nat.toDigits 10 n) = n := by
  simpa using foldl_toDigits n 0

theorem repr_data (n : Nat) : (Nat.repr n).data = Nat.toDigits 10 n := rfl

theorem readDigits_repr_append (n : Nat) (rest : List Char)
    (hrest : ∀ a t, rest = a :: t → a.isDigit = false) :
    readDigits ((Nat.repr n).data ++ rest) = some (n, rest) := by
  rw [repr_data]
  have hall := toDigits_all_digits n
  have h1 := takeWhile_append_all (p := Char.isDigit) (Nat.toDigits 10 n) rest hall
  have h2 := takeWhile_nil_of_head_false (p := Char.isDigit) rest hrest
  unfold readDigits
  rw [h1.1, h1.2, h2.1, h2.2, List.append_nil]
  have hne : (Nat.toDigits 10 n).isEmpty = false := by
    cases hd : Nat.toDigits 10 n with
    | nil => exact absurd hd (toDigits_ne_nil n)
    | cons a t => simp
  simp [hne, decValue_toDigits]

theorem readDigits_repr_nil (n : Nat) : readDigits (Nat.repr n).data = some (n, []) := by
  have := readDigits_repr_append n [] (by intro a l h; simp at h)
  simpa using this

theorem idPartsTail_digits (fixed : Bool) (c i t : Nat) :
    idPartsTail fixed c ((Nat.repr i).data ++ '-' :: (Nat.repr t).data) =
      some (fixed, c, i, t) := by
  unfold idPartsTail
  rw [readDigits_repr_append i ('-' :: (Nat.repr t).data)
    (by intro a l h; injection h with h1 _; subst h1; decide)]
  dsimp only
  rw [show (['-'] : List Char).isPrefixOf ('-' :: (Nat.repr t).data) = true by
    simp [List.isPrefixOf]]
  simp only [if_true, List.drop_one, List.tail_cons]
  rw [readDigits_repr_nil t]
  simp

theorem idParts_mkPaperId (fixed : Bool) (c i t : Nat) :
    idParts (mkPaperId fixed c i t) = some (fixed, c, i, t) := by
  cases fixed with
  | false =>
    show idPartsL (mkPaperId false c i t).data = _
    have hdata : (mkPaperId false c i t).data =
        'b' :: ((Nat.repr c).data ++ '-' :: 'p' :: ((Nat.repr i).data ++
          '-' :: (Nat.repr t).data)) := by
      simp [mkPaperId, String.data_append]
    rw [hdata]
    unfold idPartsL
    rw [show (['b'] : List Char).isPrefixOf ('b' :: ((Nat.repr c).data ++
      '-' :: 'p' :: ((Nat.repr i).data ++ '-' :: (Nat.repr t).data))) = true by
      simp [List.isPrefixOf]]
    simp only [if_true, List.drop_one, List.tail_cons]
    rw [readDigits_repr_append c ('-' :: 'p' :: ((Nat.repr i).data ++ '-' :: (Nat.repr t).data))
      (by intro a l h; injection h with h1 _; subst h1; decide)]
    dsimp only
    rw [show (['-', 'p'] : List Char).isPrefixOf ('-' :: 'p' :: ((Nat.repr i).data ++
      '-' :: (Nat.repr t).data)) = true by simp [List.isPrefixOf]]
    simp only [if_true, List.drop]
    exact idPartsTail_digits false c i t
  | true =>
    show idPartsL (mkPaperId true c i t).data = _
    have hdata : (mkPaperId true c i t).data =
        'b' :: ((Nat.repr c).data ++ '-' :: 'f' :: 'i' :: 'x' :: 'e' :: 'd' :: '-' ::
          ((Nat.repr i).data ++ '-' :: (Nat.repr t).data)) := by
      simp [mkPaperId, String.data_append]
    rw [hdata]
    unfold idPartsL
    rw [show (['b'] : List Char).isPrefixOf ('b' :: ((Nat.repr c).data ++
      '-' :: 'f' :: 'i' :: 'x' :: 'e' :: 'd' :: '-' :: ((Nat.repr i).data ++
      '-' :: (Nat.repr t).data))) = true by simp [List.isPrefixOf]]
    simp only [if_true, List.drop_one, List.tail_cons]
    rw [readDigits_repr_append c
      ('-' :: 'f' :: 'i' :: 'x' :: 'e' :: 'd' :: '-' ::
        ((Nat.repr i).data ++ '-' :: (Nat.repr t).data))
      (by intro a l h; injection h with h1 _; subst h1; decide)]
    dsimp only
    rw [show (['-', 'p'] : List Char).isPrefixOf ('-' :: 'f' :: 'i' :: 'x' :: 'e' :: 'd' ::
      '-' :: ((Nat.repr i).data ++ '-' :: (Nat.repr t).data)) = false by
      simp [List.isPrefixOf]]
    rw [show (['-', 'f', 'i', 'x', 'e', 'd', '-'] : List Char).isPrefixOf
      ('-' :: 'f' :: 'i' :: 'x' :: 'e' :: 'd' :: '-' :: ((Nat.repr i).data ++
      '-' :: (Nat.repr t).data)) = true by simp [List.isPrefixOf]]
    simp only [if_false, if_true, List.drop]
    exact idPartsTail_digits true c i t

theorem mkPaperId_inj {f f' : Bool} {c c' i i' t t' : Nat}
    (h : mkPaperId f c i t = mkPaperId f' c' i' t') : f = f' ∧ c = c' ∧ i = i' ∧ t = t' := by
  have := congrArg idParts h
  rw [idParts_mkPaperId, idParts_mkPaperId] at this
  injection this with h1
  injection h1 with hf h2
  injection h2 with hc h3
  injection h3 with hi ht
  exact ⟨hf, hc, hi, ht⟩

/-! ## Export / import round-trip (claim C9) -/

/-- C9: exporting the persisted state document (produced whenever the
corpus is nonempty) and importing it back into any state reproduces the
record list exactly — identifiers, every field, category/theme
assignments — and restores the topic context and the normalization
flag. -/
theorem C9_export_import_roundtrip (st : AppState) (doc : SavedState)
    (h : exportStateJSON st = some doc) (st2 : AppState) :
    (importStateJSON doc st2).papers = st.papers ∧
      (importStateJSON doc st2).reviewTopic = st.reviewTopic ∧
      (importStateJSON doc st2).isTermsNormalized = st.isTermsNormalized := by
  unfold exportStateJSON at h
  by_cases hp : st.papers = []
  · simp [hp] at h
  · simp only [hp, if_false, Option.some.injEq] at h
    subst h
    refine ⟨rfl, ?_, rfl⟩
    show jsOr st.reviewTopic "" = st.reviewTopic
    unfold jsOr
    by_cases ht : st.reviewTopic = "" <;> simp [ht]

/-- C9 witness: a concrete one-record corpus round-trips. -/
theorem C9_witness :
    exportStateJSON c9State = some c9Doc ∧
      (importStateJSON c9Doc {}).papers = c9State.papers ∧
      (importStateJSON c9Doc {}).reviewTopic = c9State.reviewTopic ∧
      (importStateJSON c9Doc {}).isTermsNormalized = c9State.isTermsNormalized := by
  refine ⟨by decide, ?_⟩
  exact C9_export_import_roundtrip c9State c9Doc (by decide) {}

/-! ## Direct rename is a guarded no-op and migrates locks (claim C10) -/

/-- C10: if the edited name trims to the empty string or to the original
name, `saveEditing` changes neither the corpus nor the lock set;
otherwise exactly the matching records (by category for a category edit,
by (category, theme) pair for a theme edit) receive the trimmed name with
every other field untouched, and a lock on the old key is replaced by a
lock on the new key, all other locks unchanged. -/
theorem C10_saveEditing_guard_and_migration (st : AppState) (item : EditingItem) :
    ((jsTrim item.value = "" ∨ jsTrim item.value = item.originalName) →
      saveEditing st (some item) = st) ∧
    (jsTrim item.value ≠ "" → jsTrim item.value ≠ item.originalName →
      (saveEditing st (some item)).papers.length = st.papers.length ∧
      (∀ k (hk : k < st.papers.length)
        (hk2 : k < (saveEditing st (some item)).papers.length),
        ((saveEditing st (some item)).papers[k].category =
          (if item.type = EditType.cat ∧ st.papers[k].category = item.originalName
            then jsTrim item.value else st.papers[k].category)) ∧
        ((saveEditing st (some item)).papers[k].theme =
          (if item.type = EditType.theme ∧ some st.papers[k].category = item.parentCat ∧
              st.papers[k].theme = item.originalName
            then jsTrim item.value else st.papers[k].theme)) ∧
        (saveEditing st (some item)).papers[k].id = st.papers[k].id ∧
        (saveEditing st (some item)).papers[k].title = st.papers[k].title ∧
        (saveEditing st (some item)).papers[k].driver = st.papers[k].driver ∧
        (saveEditing st (some item)).papers[k].response = st.papers[k].response ∧
        (saveEditing st (some item)).papers[k].driverGroup = st.papers[k].driverGroup ∧
        (saveEditing st (some item)).papers[k].responseGroup = st.papers[k].responseGroup ∧
        (saveEditing st (some item)).papers[k].location = st.papers[k].location ∧
        (saveEditing st (some item)).papers[k].species = st.papers[k].species ∧
        (saveEditing st (some item)).papers[k].batchId = st.papers[k].batchId ∧
        (saveEditing st (some item)).papers[k].effectDirection = st.papers[k].effectDirection ∧
        (saveEditing st (some item)).papers[k].keyFinding = st.papers[k].keyFinding) ∧
      (∀ key : String,
        key ∈ (saveEditing st (some item)).lockedItems ↔
          ((key ∈ st.lockedItems ∧ key ≠ editOldKey item) ∨
            (key = editNewKey item ∧ editOldKey item ∈ st.lockedItems)))) := by
  constructor
  · intro h
    unfold saveEditing
    rcases h with h | h <;> simp [h]
  · intro h1 h2
    have hguard : ¬ (jsTrim item.value = "" ∨ jsTrim item.value = item.originalName) := by
      intro h; rcases h with h | h
      · exact h1 h
      · exact h2 h
    refine ⟨?_, ?_, ?_⟩
    · unfold saveEditing
      simp only [hguard, if_false]
      simp
    · intro k hk hk2
      have hpap : (saveEditing st (some item)).papers = st.papers.map (fun p =>
          if item.type = EditType.cat ∧ p.category = item.originalName then
            { p with category := jsTrim item.value }
          else if item.type = EditType.theme ∧ some p.category = item.parentCat ∧
              p.theme = item.originalName then
            { p with theme := jsTrim item.value }
          else p) := by
        unfold saveEditing
        simp only [hguard, if_false]
      simp only [hpap, List.getElem_map]
      by_cases hcat : item.type = EditType.cat ∧ st.papers[k].category = item.originalName
      · have hth : ¬ (item.type = EditType.theme ∧ some st.papers[k].category = item.parentCat ∧
            st.papers[k].theme = item.originalName) := by
          intro hcon
          rw [hcat.1] at hcon
          exact absurd hcon.1 (by decide)
        simp [hcat, hth]
      · by_cases hth : item.type = EditType.theme ∧ some st.papers[k].category = item.parentCat ∧
            st.papers[k].theme = item.originalName
        · simp [hcat, hth]
        · simp [hcat, hth]
    · intro key
      unfold saveEditing
      simp only [hguard, if_false]
      by_cases hold : editOldKey item ∈ st.lockedItems
      · have hc : st.lockedItems.contains (editOldKey item) = true := by
          simpa [List.contains] using hold
        simp only [hc, if_true, List.mem_append, List.mem_filter, List.mem_singleton,
          bne_iff_ne]
        constructor
        · rintro (⟨hmem, hne⟩ | rfl)
          · exact Or.inl ⟨hmem, hne⟩
          · exact Or.inr ⟨rfl, hold⟩
        · rintro (⟨hmem, hne⟩ | ⟨rfl, _⟩)
          · exact Or.inl ⟨hmem, hne⟩
          · exact Or.inr rfl
      · have hc : st.lockedItems.contains (editOldKey item) = false := by
          simpa [List.contains] using hold
        simp only [hc, Bool.false_eq_true, if_false]
        constructor
        · intro hmem
          exact Or.inl ⟨hmem, fun he => hold (he ▸ hmem)⟩
        · rintro (⟨hmem, _⟩ | ⟨rfl, hmem2⟩)
          · exact hmem
          · exact absurd hmem2 hold

/-- C10 witness: renaming category "Heat Stress" to " Heat " (which trims
to "Heat") on a concrete state with a lock on the old name: the record
count is preserved and the lock has migrated to "cat:Heat". -/
theorem C10_witness :
    (saveEditing c10State (some c10Item)).papers.length = c10State.papers.length ∧
      ("cat:Heat" ∈ (saveEditing c10State (some c10Item)).lockedItems ↔
        (("cat:Heat" ∈ c10State.lockedItems ∧ "cat:Heat" ≠ editOldKey c10Item) ∨
          ("cat:Heat" = editNewKey c10Item ∧ editOldKey c10Item ∈ c10State.lockedItems))) := by
  have h := (C10_saveEditing_guard_and_migration c10State c10Item).2 (by decide) (by decide)
  exact ⟨h.1, h.2.2 "cat:Heat"⟩

/-! ## Accepting a category merge (claim C1) -/

theorem propagateCatMerge_preserves_catMerge (sid src tgt : String)
    (s : ConsolidationSuggestion) :
    (propagateCatMerge sid src tgt s).suggested_category_merge =
      s.suggested_category_merge := by
  unfold propagateCatMerge
  by_cases h1 : s.id = sid
  · simp [h1]
  · by_cases h2 : s.main_category = src
    · simp [h1, h2]
    · cases hmv : s.suggested_move with
      | none => simp [h1, h2, hmv]
      | some mv =>
        by_cases h3 : mv.current_category = src
        · simp [h1, h2, hmv, h3]
        · by_cases h4 : mv.target_category = src
          · simp [h1, h2, hmv, h3, h4]
          · simp [h1, h2, hmv, h3, h4]

theorem propagateCatMerge_main_match (sid src tgt : String) (s : ConsolidationSuggestion)
    (h1 : s.id ≠ sid) (h2 : s.main_category = src) :
    propagateCatMerge sid src tgt s = { s with main_category := tgt } := by
  unfold propagateCatMerge
  simp [h1, h2]

/-- C1 (amended): accepting a category-merge proposal (source→target)
rewrites the category field of every record whose category equals source
to target; among the other still-pending proposals only the first
matching reference in the order (main category, move's source category,
move's target category) is rewritten — in particular the source/target
categories of other pending category-merge proposals are never rewritten,
and a proposal whose main category matched keeps its further references
to the source unchanged. -/
theorem C1_catMerge_accept_amended (st : AppState) (sid : String)
    (s0 : ConsolidationSuggestion) (cm : SuggestedCategoryMerge)
    (hfind : (st.consolidationSuggestions.getD []).find? (fun s => s.id == sid) = some s0)
    (hcm : s0.suggested_category_merge = some cm)
    (hm : s0.suggested_merge = none) (hmv : s0.suggested_move = none)
    (hr : s0.suggested_rename = none) :
    (handleAcceptSuggestion st sid).papers = st.papers.map (fun p =>
        if p.category = cm.source_category then { p with category := cm.target_category }
        else p) ∧
    (handleAcceptSuggestion st sid).consolidationSuggestions =
      some (((st.consolidationSuggestions.getD []).map
        (propagateCatMerge sid cm.source_category cm.target_category)).filter
        (fun s => s.id != sid)) ∧
    (∀ s, (propagateCatMerge sid cm.source_category cm.target_category s).suggested_category_merge
        = s.suggested_category_merge) ∧
    (∀ s, s.id ≠ sid → s.main_category = cm.source_category →
      propagateCatMerge sid cm.source_category cm.target_category s =
        { s with main_category := cm.target_category }) := by
  refine ⟨?_, ?_, fun s => propagateCatMerge_preserves_catMerge _ _ _ s,
    fun s h1 h2 => propagateCatMerge_main_match _ _ _ s h1 h2⟩
  · unfold handleAcceptSuggestion
    rw [hfind]
    simp only [hm, hmv, hr, hcm, applyMergeStage, applyMoveStage, applyCatMergeStage,
      applyRenameStage]
  · unfold handleAcceptSuggestion
    rw [hfind]
    simp only [hm, hmv, hr, hcm]

/-- C1 witness: accepting the concrete merge of the C1 scenario. -/
theorem C1_witness :
    (handleAcceptSuggestion c1State "a").papers = c1State.papers.map (fun p =>
        if p.category = c1Cm.source_category then { p with category := c1Cm.target_category }
        else p) ∧
      (handleAcceptSuggestion c1State "a").consolidationSuggestions =
        some (((c1State.consolidationSuggestions.getD []).map
          (propagateCatMerge "a" c1Cm.source_category c1Cm.target_category)).filter
          (fun s => s.id != "a")) := by
  have h := C1_catMerge_accept_amended c1State "a" c1Accepted c1Cm
    (by decide) rfl rfl rfl rfl
  exact ⟨h.1, h.2.1⟩

/-- C1 counterexample: accepting the category merge "Heat Stress" →
"Abiotic Stress" rewrites the records, but the other pending
category-merge proposal still references "Heat Stress" as its target —
the claim's "no pending proposal is left referencing the source" fails. -/
theorem C1_counterexample :
    (∀ p ∈ (handleAcceptSuggestion c1State "a").papers, p.category ≠ "Heat Stress") ∧
      (handleAcceptSuggestion c1State "a").consolidationSuggestions = some [c1Pending] ∧
      ((handleAcceptSuggestion c1State "a").consolidationSuggestions.getD []).any
        (fun s => s.suggested_category_merge.any
          (fun cm => cm.target_category == "Heat Stress")) = true := by
  decide

/-! ## Accepting a rename (claim C2) -/

theorem propagateRename_main_match (sid x y : String) (s : ConsolidationSuggestion)
    (h1 : s.id ≠ sid) (h2 : s.main_category = x) :
    propagateRename sid x y s = { s with main_category := y } := by
  unfold propagateRename
  simp [h1, h2]

/-- C2 (amended): accepting a rename X→Y rewrites the category field of
every record with category X to Y, leaving zero records with category X;
every other still-pending proposal is rewritten only in its first
matching reference, in the order: main category, move's source category,
move's target category, category-merge's source category, category-merge's
target category — a proposal whose main category matched keeps any further
references to X (e.g. a move's source category) unchanged. -/
theorem C2_rename_accept_amended (st : AppState) (sid : String)
    (s0 : ConsolidationSuggestion) (r : SuggestedRename)
    (hfind : (st.consolidationSuggestions.getD []).find? (fun s => s.id == sid) = some s0)
    (hr : s0.suggested_rename = some r)
    (hm : s0.suggested_merge = none) (hmv : s0.suggested_move = none)
    (hcm : s0.suggested_category_merge = none)
    (hxy : r.current_name ≠ r.new_name) :
    (handleAcceptSuggestion st sid).papers = st.papers.map (fun p =>
        if p.category = r.current_name then { p with category := r.new_name } else p) ∧
    (∀ p ∈ (handleAcceptSuggestion st sid).papers, p.category ≠ r.current_name) ∧
    (handleAcceptSuggestion st sid).consolidationSuggestions =
      some (((st.consolidationSuggestions.getD []).map
        (propagateRename sid r.current_name r.new_name)).filter
        (fun s => s.id != sid)) ∧
    (∀ s, s.id ≠ sid → s.main_category = r.current_name →
      propagateRename sid r.current_name r.new_name s =
        { s with main_category := r.new_name }) := by
  have hpap : (handleAcceptSuggestion st sid).papers = st.papers.map (fun p =>
      if p.category = r.current_name then { p with category := r.new_name } else p) := by
    unfold handleAcceptSuggestion
    rw [hfind]
    simp only [hm, hmv, hr, hcm, applyMergeStage, applyMoveStage, applyCatMergeStage,
      applyRenameStage]
  refine ⟨hpap, ?_, ?_, fun s h1 h2 => propagateRename_main_match _ _ _ s h1 h2⟩
  · intro p hp
    rw [hpap] at hp
    rcases List.mem_map.mp hp with ⟨q, _, hq⟩
    by_cases hqc : q.category = r.current_name
    · rw [← hq]
      simp only [hqc, if_true]
      exact fun hcon => hxy (by simpa using hcon.symm)
    · rw [← hq]
      simp [hqc]
  · unfold handleAcceptSuggestion
    rw [hfind]
    simp only [hm, hmv, hr, hcm]

/-- C2 witness: accepting the concrete rename "X" → "Y" of the C2
scenario. -/
theorem C2_witness :
    (handleAcceptSuggestion c2State "r").papers = c2State.papers.map (fun p =>
        if p.category = c2R.current_name then { p with category := c2R.new_name } else p) ∧
      (∀ p ∈ (handleAcceptSuggestion c2State "r").papers,
        p.category ≠ c2R.current_name) := by
  have h := C2_rename_accept_amended c2State "r" c2Accepted c2R
    (by decide) rfl rfl rfl rfl (by decide)
  exact ⟨h.1, h.2.1⟩

/-- C2 counterexample: accepting the rename "X"→"Y" leaves zero records in
"X", but the other pending proposal — whose main category was "X" and
whose move's source category was "X" too — is updated only in its main
category: its move still references "X", so "every other pending proposal
that referenced X now references Y" fails. -/
theorem C2_counterexample :
    (∀ p ∈ (handleAcceptSuggestion c2State "r").papers, p.category ≠ "X") ∧
      ((handleAcceptSuggestion c2State "r").consolidationSuggestions.getD []).any
        (fun s => s.main_category == "Y" &&
          s.suggested_move.any (fun mv => mv.current_category == "X")) = true := by
  decide

/-! ## Lock filtering during consolidation (claim C3) -/

theorem checkMerge_some (locked : List String) (mc : String) (o : Option SuggestedMerge)
    (m : SuggestedMerge) (h : checkMerge locked mc o = some m) :
    o = some m ∧
      m.themes_to_combine.map jsTrim ≠ [jsTrim m.new_theme_name] ∧
      m.themes_to_combine.map jsTrim ≠ [] ∧
      ∀ t ∈ m.themes_to_combine.map jsTrim,
        locked.contains ("theme:" ++ mc ++ "|||" ++ t) = false := by
  cases o with
  | none => simp [checkMerge] at h
  | some m0 =>
    simp only [checkMerge] at h
    split at h
    · next hcond =>
      injection h with h
      subst h
      refine ⟨rfl, hcond.1, hcond.2.1, ?_⟩
      have hany := hcond.2.2
      rw [List.any_eq_false] at hany
      intro t ht
      have := hany t ht
      simpa using this
    · exact absurd h (by simp)

theorem checkMove_some (locked : List String) (o : Option SuggestedMove)
    (mv : SuggestedMove) (h : checkMove locked o = some mv) :
    o = some mv ∧ mv.current_category ≠ mv.target_category ∧
      locked.contains ("theme:" ++ mv.current_category ++ "|||" ++ mv.theme) = false := by
  cases o with
  | none => simp [checkMove] at h
  | some mv0 =>
    simp only [checkMove] at h
    split at h
    · next hcond =>
      injection h with h
      subst h
      exact ⟨rfl, hcond.1, hcond.2⟩
    · exact absurd h (by simp)

theorem checkCatMerge_some (locked : List String) (o : Option SuggestedCategoryMerge)
    (cm : SuggestedCategoryMerge) (h : checkCatMerge locked o = some cm) :
    o = some cm ∧ cm.source_category ≠ cm.target_category ∧
      locked.contains ("cat:" ++ cm.source_category) = false ∧
      locked.contains ("cat:" ++ cm.target_category) = false := by
  cases o with
  | none => simp [checkCatMerge] at h
  | some cm0 =>
    simp only [checkCatMerge] at h
    split at h
    · next hcond =>
      injection h with h
      subst h
      have hor := hcond.2
      rw [Bool.or_eq_false_iff] at hor
      exact ⟨rfl, hcond.1, hor.1, hor.2⟩
    · exact absurd h (by simp)

theorem checkRename_some (locked : List String) (o : Option SuggestedRename)
    (r : SuggestedRename) (h : checkRename locked o = some r) :
    o = some r ∧ r.current_name ≠ r.new_name ∧
      locked.contains ("cat:" ++ r.current_name) = false := by
  cases o with
  | none => simp [checkRename] at h
  | some r0 =>
    simp only [checkRename] at h
    split at h
    · next hcond =>
      injection h with h
      subst h
      exact ⟨rfl, hcond.1, hcond.2⟩
    · exact absurd h (by simp)

/-- C3 (amended): after the filtering step of a consolidation run, every
surfaced merge is a nonempty non-self merge none of whose (trimmed) member
themes is locked within its main category; every surfaced move has
distinct source and target categories and does not move a locked theme;
every surfaced category merge has distinct categories with neither the
source nor the target category locked; every surfaced rename renames an
unlocked category to a different name.  (A locked category can still
appear as a merge's containing category, as a move's source or target
category, or as a rename's new name — see the counterexample.) -/
theorem C3_filter_locks_amended (idGen : Nat → String) (locked : List String)
    (raws : List RawSuggestion) (n : Nat) (s : ConsolidationSuggestion)
    (hs : s ∈ filterSuggestions idGen locked raws n) :
    (∀ m, s.suggested_merge = some m →
      m.themes_to_combine.map jsTrim ≠ [jsTrim m.new_theme_name] ∧
      m.themes_to_combine.map jsTrim ≠ [] ∧
      ∀ t ∈ m.themes_to_combine.map jsTrim,
        locked.contains ("theme:" ++ s.main_category ++ "|||" ++ t) = false) ∧
    (∀ mv, s.suggested_move = some mv →
      mv.current_category ≠ mv.target_category ∧
      locked.contains ("theme:" ++ mv.current_category ++ "|||" ++ mv.theme) = false) ∧
    (∀ cm, s.suggested_category_merge = some cm →
      cm.source_category ≠ cm.target_category ∧
      locked.contains ("cat:" ++ cm.source_category) = false ∧
      locked.contains ("cat:" ++ cm.target_category) = false) ∧
    (∀ r, s.suggested_rename = some r →
      r.current_name ≠ r.new_name ∧
      locked.contains ("cat:" ++ r.current_name) = false) := by
  induction raws generalizing n with
  | nil => simp [filterSuggestions] at hs
  | cons raw rest ih =>
    unfold filterSuggestions at hs
    by_cases hkeep : (checkMerge locked raw.main_category raw.suggested_merge).isSome ||
        (checkMove locked raw.suggested_move).isSome ||
        (checkCatMerge locked raw.suggested_category_merge).isSome ||
        (checkRename locked raw.suggested_rename).isSome
    · simp only [hkeep, if_true] at hs
      rcases List.mem_cons.mp hs with hs | hs
      · subst hs
        refine ⟨?_, ?_, ?_, ?_⟩
        · intro m hm
          have := checkMerge_some locked raw.main_category raw.suggested_merge m hm
          exact this.2
        · intro mv hmv
          exact (checkMove_some locked raw.suggested_move mv hmv).2
        · intro cm hcm
          exact (checkCatMerge_some locked raw.suggested_category_merge cm hcm).2
        · intro r hr
          exact (checkRename_some locked raw.suggested_rename r hr).2
      · exact ih (n + 1) hs
    · simp only [hkeep, if_false] at hs
      exact ih n hs

/-- C3 witness: with an empty lock set, the C3 move is surfaced and
satisfies the filtering guarantees. -/
theorem C3_witness :
    c3Mv.current_category ≠ c3Mv.target_category ∧
      List.contains [] ("theme:" ++ c3Mv.current_category ++ "|||" ++ c3Mv.theme) = false := by
  have hmem : c3Surfaced ∈ filterSuggestions (fun _ => "n") [] [c3Raw] 0 := by decide
  have h := C3_filter_locks_amended (fun _ => "n") [] [c3Raw] 0 c3Surfaced hmem
  exact h.2.1 c3Mv rfl

/-- C3 counterexample: with category "X" locked, the service's move of
theme "T" out of "X" survives the filtering step unchanged — a locked
category appears as the *source* of a surfaced move proposal, which the
claim forbids (its only exception is the move's target). -/
theorem C3_counterexample :
    ("cat:X" ∈ (["cat:X"] : List String)) ∧
      (filterSuggestions (fun _ => "n") ["cat:X"] [c3Raw] 0).any
        (fun s => s.suggested_move.any (fun mv => mv.current_category == "X")) = true := by
  decide

/-! ## Rejection log (claim C4) -/

/-- C4 (amended): rejecting a surfaced proposal appends its canonical
signature to the rejection log and removes the proposal from the pending
list; the log is carried verbatim in the request of every subsequent
consolidation run (as the prompt's exclusion list) and is never modified
by such a run.  Surfaced proposals are, however, not re-checked against
the log, so a proposal with a logged signature is surfaced again whenever
the service returns it (see the counterexample). -/
theorem C4_reject_logs_signature (st : AppState) (sid : String)
    (s0 : ConsolidationSuggestion)
    (hfind : (st.consolidationSuggestions.getD []).find? (fun s => s.id == sid) = some s0)
    (hsig : getSuggestionSignature s0 ≠ "") :
    getSuggestionSignature s0 ∈ (handleRejectSuggestion st sid).rejectedSuggestions ∧
      (handleRejectSuggestion st sid).rejectedSuggestions =
        st.rejectedSuggestions ++ [getSuggestionSignature s0] ∧
      (handleRejectSuggestion st sid).consolidationSuggestions =
        some ((st.consolidationSuggestions.getD []).filter (fun s => s.id != sid)) ∧
      (consolidationRequestOf (handleRejectSuggestion st sid)).rejectedSuggestions =
        (handleRejectSuggestion st sid).rejectedSuggestions ∧
      (∀ idGen svc,
        (handleConsolidateThemes idGen svc (handleRejectSuggestion st sid)).rejectedSuggestions =
          (handleRejectSuggestion st sid).rejectedSuggestions) := by
  have hrej : (handleRejectSuggestion st sid).rejectedSuggestions =
      st.rejectedSuggestions ++ [getSuggestionSignature s0] := by
    unfold handleRejectSuggestion
    rw [hfind]
    simp [hsig]
  refine ⟨?_, hrej, ?_, rfl, ?_⟩
  · rw [hrej]
    simp
  · unfold handleRejectSuggestion
    rw [hfind]
  · intro idGen svc
    unfold handleConsolidateThemes
    dsimp only
    split
    · rfl
    · split
      · split <;> rfl
      · rfl

/-- C4 witness: rejecting the concrete move proposal of the C4 scenario
logs its signature, and the next run's request carries the log. -/
theorem C4_witness :
    getSuggestionSignature c4Sugg ∈ (handleRejectSuggestion c4State "s1").rejectedSuggestions ∧
      (consolidationRequestOf (handleRejectSuggestion c4State "s1")).rejectedSuggestions =
        (handleRejectSuggestion c4State "s1").rejectedSuggestions := by
  have h := C4_reject_logs_signature c4State "s1" c4Sugg (by decide) (by decide)
  exact ⟨h.1, h.2.2.2.1⟩

/-- C4 counterexample: after rejecting the move proposal (its signature is
logged), a later consolidation run whose service response contains the
same move surfaces a proposal with exactly the logged signature — the
filtering step performs no signature check, so the claim's "no surfaced
proposal has a signature equal to one in the rejection log" fails. -/
theorem C4_counterexample :
    getSuggestionSignature c4Sugg ∈ (handleRejectSuggestion c4State "s1").rejectedSuggestions ∧
      ((handleConsolidateThemes (fun _ => "n2") (fun _ => c4Resp)
          (handleRejectSuggestion c4State "s1")).consolidationSuggestions.getD []).any
        (fun s => getSuggestionSignature s == getSuggestionSignature c4Sugg) = true := by
  decide

/-! ## Retry policy (claim C6) -/

theorem retryable_not_malformed (e : AErr) (h : isRetryableErr e = true) :
    isMalformedErr e = false := by
  cases e <;> simp_all [isRetryableErr, isMalformedErr]

theorem fatal_not_malformed (e : AErr) (h : isFatalErr e = true) :
    isMalformedErr e = false := by
  cases e <;> simp_all [isFatalErr, isMalformedErr]

theorem fatal_not_retryable (e : AErr) (h : isFatalErr e = true) :
    isRetryableErr e = false := by
  cases e <;> simp_all [isFatalErr, isRetryableErr]

theorem analyzeLoop_fatal (svc : Nat → AttemptOutcome) (jitter : Nat → Nat)
    (retries : Nat) (delays : List Nat) (calls : Nat) (e : AErr)
    (h : svc retries = .err e) (hf : isFatalErr e = true) :
    analyzeLoop svc jitter retries delays calls =
      { result := .error e, delays := delays, calls := calls + 1 } := by
  unfold analyzeLoop
  rw [h]
  simp [isMalformedErr, fatal_not_malformed e hf, fatal_not_retryable e hf, hf]

theorem analyzeLoop_retry (svc : Nat → AttemptOutcome) (jitter : Nat → Nat)
    (retries : Nat) (delays : List Nat) (calls : Nat) (e : AErr)
    (h : svc retries = .err e) (hr : isRetryableErr e = true) (hlt : retries < maxRetries) :
    analyzeLoop svc jitter retries delays calls =
      analyzeLoop svc jitter (retries + 1)
        (delays ++ [2 ^ (retries + 1) * 1000 + jitter (retries + 1)]) (calls + 1) := by
  conv_lhs => rw [analyzeLoop]
  rw [h]
  simp [retryable_not_malformed e hr, hr, hlt]

theorem analyzeLoop_ceiling (svc : Nat → AttemptOutcome) (jitter : Nat → Nat)
    (retries : Nat) (delays : List Nat) (calls : Nat) (e : AErr)
    (h : svc retries = .err e) (hr : isRetryableErr e = true) (hge : maxRetries ≤ retries) :
    analyzeLoop svc jitter retries delays calls =
      { result := .error e, delays := delays, calls := calls + 1 } := by
  unfold analyzeLoop
  rw [h]
  simp [retryable_not_malformed e hr, hr, Nat.not_lt.mpr hge]

/-- C6: a fatal error (invalid credentials or exhausted quota) on the
first attempt propagates immediately — exactly one service call, no
recorded backoff delay; a rate-limit/overload error is instead retried
with exponentially growing, jittered backoff (delay `2^r * 1000 + jitter`
milliseconds on the r-th retry) up to the fixed ceiling of `maxRetries =
6` retries, after which the error propagates: 7 calls in total and a
strictly increasing delay sequence whenever each jitter is below the
1000 ms jitter bound. -/
theorem C6_retry_policy (svcF svcR : Nat → AttemptOutcome) (jitter : Nat → Nat) (e f : AErr)
    (hF : svcF 0 = .err e) (heF : isFatalErr e = true)
    (hR : ∀ r, r ≤ maxRetries → svcR r = .err f) (heR : isRetryableErr f = true)
    (hj : ∀ r, jitter r < 1000) :
    (analyzeWithGemini svcF jitter).result = .error e ∧
      (analyzeWithGemini svcF jitter).calls = 1 ∧
      (analyzeWithGemini svcF jitter).delays = [] ∧
      (analyzeWithGemini svcR jitter).result = .error f ∧
      (analyzeWithGemini svcR jitter).calls = maxRetries + 1 ∧
      (analyzeWithGemini svcR jitter).delays =
        [2 ^ 1 * 1000 + jitter 1, 2 ^ 2 * 1000 + jitter 2, 2 ^ 3 * 1000 + jitter 3,
          2 ^ 4 * 1000 + jitter 4, 2 ^ 5 * 1000 + jitter 5, 2 ^ 6 * 1000 + jitter 6] ∧
      (analyzeWithGemini svcR jitter).delays.Chain' (· < ·) := by
  have hfatal : analyzeWithGemini svcF jitter =
      { result := .error e, delays := [], calls := 1 } :=
    analyzeLoop_fatal svcF jitter 0 [] 0 e hF heF
  have hsteps : analyzeWithGemini svcR jitter =
      { result := .error f
        delays := [2 ^ 1 * 1000 + jitter 1, 2 ^ 2 * 1000 + jitter 2, 2 ^ 3 * 1000 + jitter 3,
          2 ^ 4 * 1000 + jitter 4, 2 ^ 5 * 1000 + jitter 5, 2 ^ 6 * 1000 + jitter 6]
        calls := 7 } := by
    unfold analyzeWithGemini
    rw [analyzeLoop_retry svcR jitter 0 _ _ f (hR 0 (by decide)) heR (by decide),
      analyzeLoop_retry svcR jitter 1 _ _ f (hR 1 (by decide)) heR (by decide),
      analyzeLoop_retry svcR jitter 2 _ _ f (hR 2 (by decide)) heR (by decide),
      analyzeLoop_retry svcR jitter 3 _ _ f (hR 3 (by decide)) heR (by decide),
      analyzeLoop_retry svcR jitter 4 _ _ f (hR 4 (by decide)) heR (by decide),
      analyzeLoop_retry svcR jitter 5 _ _ f (hR 5 (by decide)) heR (by decide),
      analyzeLoop_ceiling svcR jitter (5 + 1) _ _ f (hR (5 + 1) (by decide)) heR (by decide)]
    simp
  refine ⟨by rw [hfatal], by rw [hfatal], by rw [hfatal], by rw [hsteps],
    by rw [hsteps]; rfl, by rw [hsteps], ?_⟩
  rw [hsteps]
  simp only [List.chain'_cons, List.chain'_singleton, and_true]
  have h1 := hj 1
  have h2 := hj 2
  have h3 := hj 3
  have h4 := hj 4
  have h5 := hj 5
  have h6 := hj 6
  refine ⟨?_, ?_, ?_, ?_, ?_⟩ <;> · norm_num; omega

/-- C6 witness: a quota error propagates at once; a permanent rate limit
exhausts the ceiling with increasing delays. -/
theorem C6_witness :
    (analyzeWithGemini (fun _ => .err .quotaErr) (fun _ => 0)).result = .error .quotaErr ∧
      (analyzeWithGemini (fun _ => .err .quotaErr) (fun _ => 0)).calls = 1 ∧
      (analyzeWithGemini (fun _ => .err .quotaErr) (fun _ => 0)).delays = [] ∧
      (analyzeWithGemini (fun _ => .err .rateLimited) (fun _ => 0)).result =
        .error .rateLimited ∧
      (analyzeWithGemini (fun _ => .err .rateLimited) (fun _ => 0)).calls = maxRetries + 1 ∧
      (analyzeWithGemini (fun _ => .err .rateLimited) (fun _ => 0)).delays =
        [2 ^ 1 * 1000 + 0, 2 ^ 2 * 1000 + 0, 2 ^ 3 * 1000 + 0,
          2 ^ 4 * 1000 + 0, 2 ^ 5 * 1000 + 0, 2 ^ 6 * 1000 + 0] ∧
      (analyzeWithGemini (fun _ => .err .rateLimited) (fun _ => 0)).delays.Chain' (· < ·) :=
  C6_retry_policy (fun _ => .err .quotaErr) (fun _ => .err .rateLimited) (fun _ => 0)
    .quotaErr .rateLimited rfl (by decide) (fun r _ => rfl) (by decide) (fun r => by norm_num)

/-! ## Identifier bookkeeping (towards claim C8) -/

theorem map_id_of_preserving (f : Paper → Paper) (hf : ∀ p, (f p).id = p.id)
    (ps : List Paper) : (ps.map f).map Paper.id = ps.map Paper.id := by
  induction ps with
  | nil => rfl
  | cons p rest ih => simp only [List.map_cons, hf, ih]

theorem idOkB_mono (bc bc' : Nat) (s : String) (h : idOkB bc s = true) (hle : bc ≤ bc') :
    idOkB bc' s = true := by
  unfold idOkB at h ⊢
  cases hp : idParts s with
  | none => rw [hp] at h; simp at h
  | some parts =>
    rw [hp] at h
    obtain ⟨k, c, i, t⟩ := parts
    simp only [Bool.and_eq_true, decide_eq_true_eq, Bool.or_eq_true, Bool.not_eq_true'] at h ⊢
    rcases h with ⟨h1, h2 | h2⟩
    · exact ⟨by omega, Or.inl h2⟩
    · exact ⟨by omega, Or.inr (by omega)⟩

theorem idOkB_mkPaperId_batch (bc idx t : Nat) :
    idOkB bc (mkPaperId false bc idx t) = true := by
  unfold idOkB
  rw [idParts_mkPaperId]
  simp

theorem idOkB_mkPaperId_fixed (bc idx t : Nat) :
    idOkB (bc + 1) (mkPaperId true bc idx t) = true := by
  unfold idOkB
  rw [idParts_mkPaperId]
  simp

theorem idOkB_ne_new_batch (bc : Nat) (s : String) (h : idOkB bc s = true)
    (c idx t : Nat) (hc : bc < c) : s ≠ mkPaperId false c idx t := by
  intro he
  subst he
  unfold idOkB at h
  rw [idParts_mkPaperId] at h
  simp at h
  omega

theorem idOkB_ne_new_fixed (bc : Nat) (s : String) (h : idOkB bc s = true)
    (idx t : Nat) : s ≠ mkPaperId true bc idx t := by
  intro he
  subst he
  unfold idOkB at h
  rw [idParts_mkPaperId] at h
  simp at h

theorem buildPapers_length (mk : Nat → RawPaper → Paper) :
    ∀ (i : Nat) (rs : List RawPaper), (buildPapers mk i rs).length = rs.length := by
  intro i rs
  induction rs generalizing i with
  | nil => rfl
  | cons p rest ih => simp [buildPapers, ih]

theorem mem_buildPapers_batch (c : Nat) (time : Nat → Nat → Nat) (modelId : String)
    (raws : List RawPaper) :
    ∀ i q, q ∈ buildPapers (fun idx p => mkPaperBatch c idx (time c idx) modelId p) i raws →
      ∃ idx, i ≤ idx ∧ q.id = mkPaperId false c idx (time c idx) := by
  induction raws with
  | nil => intro i q hq; simp [buildPapers] at hq
  | cons p rest ih =>
    intro i q hq
    rcases List.mem_cons.mp hq with hq | hq
    · exact ⟨i, le_refl i, by rw [hq]; rfl⟩
    · rcases ih (i + 1) q hq with ⟨idx, hidx, hid⟩
      exact ⟨idx, by omega, hid⟩

theorem mem_buildPapers_fixed (bc : Nat) (time : Nat → Nat → Nat) (modelId : String)
    (raws : List RawPaper) :
    ∀ i q, q ∈ buildPapers (fun idx p => mkPaperFixed bc idx (time bc idx) modelId p) i raws →
      ∃ idx, i ≤ idx ∧ q.id = mkPaperId true bc idx (time bc idx) := by
  induction raws with
  | nil => intro i q hq; simp [buildPapers] at hq
  | cons p rest ih =>
    intro i q hq
    rcases List.mem_cons.mp hq with hq | hq
    · exact ⟨i, le_refl i, by rw [hq]; rfl⟩
    · rcases ih (i + 1) q hq with ⟨idx, hidx, hid⟩
      exact ⟨idx, by omega, hid⟩

theorem nodup_buildPapers_batch (c : Nat) (time : Nat → Nat → Nat) (modelId : String)
    (raws : List RawPaper) :
    ∀ i, ((buildPapers (fun idx p => mkPaperBatch c idx (time c idx) modelId p) i raws).map
      Paper.id).Nodup := by
  induction raws with
  | nil => intro i; simp [buildPapers]
  | cons p rest ih =>
    intro i
    simp only [buildPapers, List.map_cons, List.nodup_cons]
    refine ⟨?_, ih (i + 1)⟩
    intro hmem
    rcases List.mem_map.mp hmem with ⟨q, hq, hid⟩
    rcases mem_buildPapers_batch c time modelId rest (i + 1) q hq with ⟨idx, hidx, hqid⟩
    rw [hqid] at hid
    have := (mkPaperId_inj hid).2.2.1
    omega

theorem nodup_buildPapers_fixed (bc : Nat) (time : Nat → Nat → Nat) (modelId : String)
    (raws : List RawPaper) :
    ∀ i, ((buildPapers (fun idx p => mkPaperFixed bc idx (time bc idx) modelId p) i raws).map
      Paper.id).Nodup := by
  induction raws with
  | nil => intro i; simp [buildPapers]
  | cons p rest ih =>
    intro i
    simp only [buildPapers, List.map_cons, List.nodup_cons]
    refine ⟨?_, ih (i + 1)⟩
    intro hmem
    rcases List.mem_map.mp hmem with ⟨q, hq, hid⟩
    rcases mem_buildPapers_fixed bc time modelId rest (i + 1) q hq with ⟨idx, hidx, hqid⟩
    rw [hqid] at hid
    have := (mkPaperId_inj hid).2.2.1
    omega

theorem idOkB_all_of_map_ids_eq (c : Nat) (ps qs : List Paper)
    (hids : qs.map Paper.id = ps.map Paper.id)
    (hok : ∀ p ∈ ps, idOkB c p.id = true) : ∀ q ∈ qs, idOkB c q.id = true := by
  intro q hq
  have hmem : q.id ∈ qs.map Paper.id := List.mem_map_of_mem _ hq
  rw [hids] at hmem
  rcases List.mem_map.mp hmem with ⟨p, hp, hpe⟩
  rw [← hpe]
  exact hok p hp

theorem applyAuditFixes_ids (fixes : List AuditFix) (ps : List Paper) :
    (applyAuditFixes fixes ps).map Paper.id = ps.map Paper.id := by
  unfold applyAuditFixes
  exact map_id_of_preserving _ (fun p => by split <;> rfl) ps

theorem applyMergeStage_ids (mc : String) (o : Option SuggestedMerge) (ps : List Paper) :
    (applyMergeStage mc o ps).map Paper.id = ps.map Paper.id := by
  cases o with
  | none => rfl
  | some m => exact map_id_of_preserving _ (fun p => by split <;> rfl) ps

theorem applyMoveStage_ids (o : Option SuggestedMove) (ps : List Paper) :
    (applyMoveStage o ps).map Paper.id = ps.map Paper.id := by
  cases o with
  | none => rfl
  | some mv => exact map_id_of_preserving _ (fun p => by split <;> rfl) ps

theorem applyCatMergeStage_ids (o : Option SuggestedCategoryMerge) (ps : List Paper) :
    (applyCatMergeStage o ps).map Paper.id = ps.map Paper.id := by
  cases o with
  | none => rfl
  | some cm => exact map_id_of_preserving _ (fun p => by split <;> rfl) ps

theorem applyRenameStage_ids (o : Option SuggestedRename) (ps : List Paper) :
    (applyRenameStage o ps).map Paper.id = ps.map Paper.id := by
  cases o with
  | none => rfl
  | some r => exact map_id_of_preserving _ (fun p => by split <;> rfl) ps

theorem handleAcceptSuggestion_ids (st : AppState) (sid : String) :
    (handleAcceptSuggestion st sid).papers.map Paper.id = st.papers.map Paper.id ∧
      (handleAcceptSuggestion st sid).batchCount = st.batchCount := by
  unfold handleAcceptSuggestion
  split
  · exact ⟨rfl, rfl⟩
  · dsimp only
    refine ⟨?_, rfl⟩
    rw [applyRenameStage_ids, applyCatMergeStage_ids, applyMoveStage_ids, applyMergeStage_ids]

theorem handleRejectSuggestion_ids (st : AppState) (sid : String) :
    (handleRejectSuggestion st sid).papers.map Paper.id = st.papers.map Paper.id ∧
      (handleRejectSuggestion st sid).batchCount = st.batchCount := by
  unfold handleRejectSuggestion
  split
  · exact ⟨rfl, rfl⟩
  · exact ⟨rfl, rfl⟩

theorem handleConsolidateThemes_ids (idGen : Nat → String)
    (svc : ConsolidationRequest → ConsolidationResult) (st : AppState) :
    (handleConsolidateThemes idGen svc st).papers.map Paper.id = st.papers.map Paper.id ∧
      (handleConsolidateThemes idGen svc st).batchCount = st.batchCount := by
  unfold handleConsolidateThemes
  dsimp only
  split
  · exact ⟨rfl, rfl⟩
  · split
    · split
      · exact ⟨rfl, rfl⟩
      · exact ⟨rfl, rfl⟩
    · exact ⟨rfl, rfl⟩

theorem handleOptimizeTerms_ids (moves : List OptMove) (st : AppState) :
    (handleOptimizeTerms moves st).papers.map Paper.id = st.papers.map Paper.id ∧
      (handleOptimizeTerms moves st).batchCount = st.batchCount := by
  unfold handleOptimizeTerms
  split
  · exact ⟨rfl, rfl⟩
  · dsimp only
    refine ⟨?_, rfl⟩
    split
    · exact map_id_of_preserving _ (fun p => by split <;> rfl) st.papers
    · rfl

theorem saveEditing_ids (st : AppState) (item : Option EditingItem) :
    (saveEditing st item).papers.map Paper.id = st.papers.map Paper.id ∧
      (saveEditing st item).batchCount = st.batchCount := by
  cases item with
  | none => exact ⟨rfl, rfl⟩
  | some it =>
    by_cases hguard : jsTrim it.value = "" ∨ jsTrim it.value = it.originalName
    · rcases hguard with h | h <;> simp [saveEditing, h]
    · unfold saveEditing
      simp only [hguard, if_false]
      refine ⟨?_, trivial⟩
      refine map_id_of_preserving _ (fun p => ?_) st.papers
      split
      · rfl
      · split <;> rfl

theorem handleDrop_ids (st : AppState) (dragged target : DragItem) :
    (handleDrop st dragged target).papers.map Paper.id = st.papers.map Paper.id ∧
      (handleDrop st dragged target).batchCount = st.batchCount := by
  unfold handleDrop
  split
  · split
    · exact ⟨rfl, rfl⟩
    · exact ⟨map_id_of_preserving _ (fun p => by split <;> rfl) st.papers, rfl⟩
  · split
    · exact ⟨rfl, rfl⟩
    · exact ⟨map_id_of_preserving _ (fun p => by split <;> rfl) st.papers, rfl⟩
  · split
    · exact ⟨rfl, rfl⟩
    · exact ⟨map_id_of_preserving _ (fun p => by split <;> rfl) st.papers, rfl⟩
  · exact ⟨rfl, rfl⟩

theorem processLoopW_pause_at (svc : String → SvcOutcome) (time : Nat → Nat → Nat)
    (modelId : String) (stop : Nat → Bool) (batches : List String) (k : Nat)
    (hk : k < batches.length) (hstop : ∀ j, stop j = false)
    (hfail : svc (batches.getD k "") = SvcOutcome.parseFailure)
    (papers : List Paper) (counter : Nat) (cur : AppState) :
    processLoopW svc time modelId stop batches k papers counter cur =
      LoopResultW.pausedForFix cur (batches.getD k "") k := by
  have hfail2 : svc batches[k] = SvcOutcome.parseFailure := by
    rwa [List.getD_eq_getElem batches "" hk] at hfail
  unfold processLoopW
  rw [dif_pos hk]
  simp only [hstop k, Bool.false_eq_true, if_false]
  rw [hfail2, List.getD_eq_getElem batches "" hk]

theorem processLoopW_pause (svc : String → SvcOutcome) (time : Nat → Nat → Nat)
    (modelId : String) (stop : Nat → Bool) (batches : List String)
    (raws : Nat → List RawPaper) (tr : Nat → Bool) (k : Nat)
    (hk : k < batches.length) (hstop : ∀ j, stop j = false)
    (hfail : svc (batches.getD k "") = SvcOutcome.parseFailure) :
    ∀ d i papers counter cur, k - i ≤ d → i ≤ k →
      cur.papers = papers → cur.batchCount = counter →
      (∀ j, i ≤ j → j < k → svc (batches.getD j "") = SvcOutcome.ok (raws j) (tr j)) →
      ∃ merged, processLoopW svc time modelId stop batches i papers counter cur =
          LoopResultW.pausedForFix
            { cur with papers := papers ++ merged, batchCount := counter + (k - i) }
            (batches.getD k "") k ∧
        merged.length = sumRawLens raws i k := by
  intro d
  induction d with
  | zero =>
    intro i papers counter cur hd hik hcp hcc hok
    have hie : i = k := by omega
    subst hie
    refine ⟨[], ?_, ?_⟩
    · rw [processLoopW_pause_at svc time modelId stop batches i hk hstop hfail papers
        counter cur]
      rw [List.append_nil, Nat.sub_self, Nat.add_zero, ← hcp, ← hcc]
    · have hs : sumRawLens raws i i = 0 := by
        rw [sumRawLens]
        rw [if_neg (lt_irrefl i)]
      simp [hs]
  | succ d ih =>
    intro i papers counter cur hd hik hcp hcc hok
    rcases Nat.lt_or_ge i k with hlt | hge
    · have hib : i < batches.length := by omega
      have hi : svc batches[i] = SvcOutcome.ok (raws i) (tr i) := by
        have h := hok i le_rfl hlt
        rwa [List.getD_eq_getElem batches "" hib] at h
      obtain ⟨m, hm, hmlen⟩ := ih (i + 1)
        (papers ++ buildPapers (fun idx p =>
          mkPaperBatch (counter + 1) idx (time (counter + 1) idx) modelId p) 0 (raws i))
        (counter + 1)
        { cur with
          papers := papers ++ buildPapers (fun idx p =>
            mkPaperBatch (counter + 1) idx (time (counter + 1) idx) modelId p) 0 (raws i)
          batchCount := counter + 1 }
        (by omega) (by omega) rfl rfl (fun j hj1 hj2 => hok j (by omega) hj2)
      refine ⟨buildPapers (fun idx p =>
          mkPaperBatch (counter + 1) idx (time (counter + 1) idx) modelId p) 0 (raws i) ++ m,
        ?_, ?_⟩
      · unfold processLoopW
        rw [dif_pos hib]
        simp only [hstop i, Bool.false_eq_true, if_false]
        rw [hi]
        dsimp only
        rw [hm, List.append_assoc]
        have harith : counter + 1 + (k - (i + 1)) = counter + (k - i) := by omega
        rw [harith]
      · have hs : sumRawLens raws i k = (raws i).length + sumRawLens raws (i + 1) k := by
          rw [sumRawLens]
          rw [if_pos hlt]
        rw [List.length_append, buildPapers_length, hmlen, hs]
    · have hie : i = k := by omega
      subst hie
      refine ⟨[], ?_, ?_⟩
      · rw [processLoopW_pause_at svc time modelId stop batches i hk hstop hfail papers
          counter cur]
        rw [List.append_nil, Nat.sub_self, Nat.add_zero, ← hcp, ← hcc]
      · have hs : sumRawLens raws i i = 0 := by
          rw [sumRawLens]
          rw [if_neg (lt_irrefl i)]
        simp [hs]

theorem processLoopW_finish (svc : String → SvcOutcome) (time : Nat → Nat → Nat)
    (modelId : String) (stop : Nat → Bool) (batches : List String)
    (raws : Nat → List RawPaper) (tr : Nat → Bool)
    (hstop : ∀ j, stop j = false) :
    ∀ d i papers counter cur, batches.length - i ≤ d →
      (∀ j, i ≤ j → j < batches.length →
        svc (batches.getD j "") = SvcOutcome.ok (raws j) (tr j)) →
      ∃ merged, processLoopW svc time modelId stop batches i papers counter cur =
          LoopResultW.finished (papers ++ merged)
            (if i < batches.length then
              { cur with
                papers := papers ++ merged
                batchCount := counter + (batches.length - i) }
            else cur) ∧
        merged.length = sumRawLens raws i batches.length ∧
        ∀ q ∈ merged, ∃ c idx, counter < c ∧ q.id = mkPaperId false c idx (time c idx) := by
  intro d
  induction d with
  | zero =>
    intro i papers counter cur hd hok
    have hge : ¬ i < batches.length := by omega
    refine ⟨[], ?_, ?_, ?_⟩
    · unfold processLoopW
      rw [dif_neg hge, if_neg hge, List.append_nil]
    · have hs : sumRawLens raws i batches.length = 0 := by
        rw [sumRawLens]
        rw [if_neg hge]
      simp [hs]
    · intro q hq
      simp at hq
  | succ d ih =>
    intro i papers counter cur hd hok
    by_cases hib : i < batches.length
    · have hi : svc batches[i] = SvcOutcome.ok (raws i) (tr i) := by
        have h := hok i le_rfl hib
        rwa [List.getD_eq_getElem batches "" hib] at h
      obtain ⟨m, hm, hmlen, hmshape⟩ := ih (i + 1)
        (papers ++ buildPapers (fun idx p =>
          mkPaperBatch (counter + 1) idx (time (counter + 1) idx) modelId p) 0 (raws i))
        (counter + 1)
        { cur with
          papers := papers ++ buildPapers (fun idx p =>
            mkPaperBatch (counter + 1) idx (time (counter + 1) idx) modelId p) 0 (raws i)
          batchCount := counter + 1 }
        (by omega) (fun j hj1 hj2 => hok j (by omega) hj2)
      refine ⟨buildPapers (fun idx p =>
          mkPaperBatch (counter + 1) idx (time (counter + 1) idx) modelId p) 0 (raws i) ++ m,
        ?_, ?_, ?_⟩
      · unfold processLoopW
        rw [dif_pos hib]
        simp only [hstop i, Bool.false_eq_true, if_false]
        rw [hi]
        dsimp only
        rw [hm]
        by_cases h2 : i + 1 < batches.length
        · rw [if_pos h2, if_pos hib]
          have harith : counter + 1 + (batches.length - (i + 1)) =
              counter + (batches.length - i) := by omega
          rw [harith, List.append_assoc]
        · have hmnil : m = [] := by
            have hs0 : sumRawLens raws (i + 1) batches.length = 0 := by
              rw [sumRawLens]
              rw [if_neg h2]
            rw [hs0] at hmlen
            exact List.length_eq_zero.mp hmlen
          subst hmnil
          rw [if_neg h2, if_pos hib]
          have harith : counter + (batches.length - i) = counter + 1 := by omega
          rw [harith, List.append_nil, List.append_nil]
      · have hs : sumRawLens raws i batches.length =
            (raws i).length + sumRawLens raws (i + 1) batches.length := by
          rw [sumRawLens]
          rw [if_pos hib]
        rw [List.length_append, buildPapers_length, hmlen, hs]
      · intro q hq
        rcases List.mem_append.mp hq with hq | hq
        · rcases mem_buildPapers_batch (counter + 1) time modelId (raws i) 0 q hq with
            ⟨idx, _, hid⟩
          exact ⟨counter + 1, idx, by omega, hid⟩
        · rcases hmshape q hq with ⟨c, idx, hclt, hid⟩
          exact ⟨c, idx, by omega, hid⟩
    · refine ⟨[], ?_, ?_, ?_⟩
      · unfold processLoopW
        rw [dif_neg hib, if_neg hib, List.append_nil]
      · have hs : sumRawLens raws i batches.length = 0 := by
          rw [sumRawLens]
          rw [if_neg hib]
        simp [hs]
      · intro q hq
        simp at hq

theorem finishAudit_manualFixState (audit : List String → List AuditFix)
    (accumulated : List Paper) (st : AppState) :
    (finishAudit audit accumulated st).manualFixState = st.manualFixState := by
  unfold finishAudit
  dsimp only
  split
  · split
    · rfl
    · rfl
  · rfl

theorem finishAudit_papers_ids (audit : List String → List AuditFix)
    (accumulated : List Paper) (st : AppState) (h : st.papers = accumulated) :
    (finishAudit audit accumulated st).papers.map Paper.id = accumulated.map Paper.id := by
  unfold finishAudit
  dsimp only
  split
  · split
    · exact applyAuditFixes_ids _ _
    · rw [h]
  · rw [h]

theorem finishAudit_papers_audited (audit : List String → List AuditFix)
    (accumulated : List Paper) (st : AppState)
    (hne : accumulated ≠ []) (hfx : audit (buildTaxonomyList accumulated) ≠ []) :
    (finishAudit audit accumulated st).papers =
      applyAuditFixes (audit (buildTaxonomyList accumulated)) accumulated := by
  simp [finishAudit, hne, hfx]

theorem handleProcessAll_pause (svc : String → SvcOutcome)
    (audit : List String → List AuditFix) (time : Nat → Nat → Nat) (modelId : String)
    (stop : Nat → Bool) (st : AppState) (raws : Nat → List RawPaper) (tr : Nat → Bool)
    (k : Nat)
    (hkey : st.apiKey ≠ "") (htxt : jsTrim st.inputText ≠ "")
    (hstop : ∀ j, stop j = false)
    (hk : k < (startBatches st).length)
    (hok : ∀ j, j < k → svc ((startBatches st).getD j "") = SvcOutcome.ok (raws j) (tr j))
    (hfail : svc ((startBatches st).getD k "") = SvcOutcome.parseFailure) :
    ∃ merged,
      handleProcessAll svc audit time modelId stop 0 "" st =
        { st with consolidationSuggestions := none
                  isConsolidationComplete := false
                  papers := st.papers ++ merged
                  batchCount := st.batchCount + k
                  manualFixState := some ((startBatches st).getD k "", k) } ∧
      merged.length = sumRawLens raws 0 k := by
  obtain ⟨merged, hm, hlen⟩ := processLoopW_pause svc time modelId stop (startBatches st)
    raws tr k hk hstop hfail k 0 st.papers st.batchCount
    { st with consolidationSuggestions := none, isConsolidationComplete := false }
    (by omega) (Nat.zero_le k) rfl rfl (fun j h0 hjk => hok j hjk)
  refine ⟨merged, ?_, hlen⟩
  have hguard : ¬ (jsTrim st.inputText = "" ∧ ("" : String) = "") := fun h => htxt h.1
  unfold handleProcessAll handleProcessAllW
  rw [if_neg hguard, if_neg hkey]
  simp only []
  rw [show jsOr "" st.inputText = st.inputText from rfl]
  rw [show createBatches (cleanRawText st.inputText) 25000 = startBatches st from rfl]
  rw [hm]
  rw [Nat.sub_zero]

theorem handleProcessAllW_resume_ids (svc : String → SvcOutcome)
    (audit : List String → List AuditFix) (time : Nat → Nat → Nat) (modelId : String)
    (stop : Nat → Bool) (i : Nat) (cl cur : AppState)
    (raws : Nat → List RawPaper) (tr : Nat → Bool)
    (hkey : cl.apiKey ≠ "") (htxt : jsTrim cl.inputText ≠ "")
    (hstop : ∀ j, stop j = false)
    (hok : ∀ j, i ≤ j → j < (startBatches cl).length →
      svc ((startBatches cl).getD j "") = SvcOutcome.ok (raws j) (tr j))
    (htrig : i < (startBatches cl).length ∨ (cl.papers ≠ [] ∧ ∀ l, audit l ≠ [])) :
    (handleProcessAllW svc audit time modelId stop i "" cl cur).manualFixState =
        cur.manualFixState ∧
      ∃ tailIds,
        (handleProcessAllW svc audit time modelId stop i "" cl cur).papers.map Paper.id =
          cl.papers.map Paper.id ++ tailIds ∧
        tailIds.length = sumRawLens raws i (startBatches cl).length ∧
        ∀ s ∈ tailIds, ∃ c idx, cl.batchCount < c ∧
          s = mkPaperId false c idx (time c idx) := by
  obtain ⟨merged, hm, hlen, hshape⟩ := processLoopW_finish svc time modelId stop
    (startBatches cl) raws tr hstop ((startBatches cl).length - i) i cl.papers cl.batchCount
    { cur with consolidationSuggestions := none, isConsolidationComplete := false }
    (le_refl _) hok
  have hguard : ¬ (jsTrim cl.inputText = "" ∧ ("" : String) = "") := fun h => htxt h.1
  have hpa : handleProcessAllW svc audit time modelId stop i "" cl cur =
      finishAudit audit (cl.papers ++ merged)
        (if i < (startBatches cl).length then
          { { cur with consolidationSuggestions := none, isConsolidationComplete := false } with
            papers := cl.papers ++ merged
            batchCount := cl.batchCount + ((startBatches cl).length - i) }
        else { cur with consolidationSuggestions := none, isConsolidationComplete := false }) := by
    unfold handleProcessAllW
    rw [if_neg hguard, if_neg hkey]
    simp only []
    rw [show jsOr "" cl.inputText = cl.inputText from rfl]
    rw [show createBatches (cleanRawText cl.inputText) 25000 = startBatches cl from rfl]
    rw [hm]
  by_cases hcase : i < (startBatches cl).length
  · constructor
    · rw [hpa, finishAudit_manualFixState, if_pos hcase]
    · refine ⟨merged.map Paper.id, ?_, ?_, ?_⟩
      · rw [hpa]
        rw [if_pos hcase]
        rw [finishAudit_papers_ids audit (cl.papers ++ merged) _ rfl, List.map_append]
      · rw [List.length_map, hlen]
      · intro s hs
        rcases List.mem_map.mp hs with ⟨q, hq, hqe⟩
        rcases hshape q hq with ⟨c, idx, hlt2, hid⟩
        exact ⟨c, idx, hlt2, by rw [← hqe, hid]⟩
  · have hmnil : merged = [] := by
      have hs0 : sumRawLens raws i (startBatches cl).length = 0 := by
        rw [sumRawLens]
        rw [if_neg hcase]
      rw [hs0] at hlen
      exact List.length_eq_zero.mp hlen
    subst hmnil
    rcases htrig with h | ⟨hne, hall⟩
    · exact absurd h hcase
    have hne2 : cl.papers ++ [] ≠ [] := by simpa using hne
    have hfx : audit (buildTaxonomyList (cl.papers ++ [])) ≠ [] := hall _
    constructor
    · rw [hpa, finishAudit_manualFixState, if_neg hcase]
    · refine ⟨[], ?_, ?_, ?_⟩
      · rw [hpa]
        rw [finishAudit_papers_audited audit (cl.papers ++ []) _ hne2 hfx]
        rw [applyAuditFixes_ids]
        simp
      · have hs0 : sumRawLens raws i (startBatches cl).length = 0 := by
          rw [sumRawLens]
          rw [if_neg hcase]
        simp [hs0]
      · intro s hs
        simp at hs

/-- C5 (code bug): when batches `0..k-1` decode, the service output for
batch `k` cannot be decoded, and the service accepts the human-corrected
text, the pipeline suspends carrying the original text of batch `k` (not
the malformed service output) together with the index `k`, having merged
exactly the records of batches `0..k-1`.  Saving the corrected text
commits the repaired batch's records (penultimate conjunct: the
committed state gains `rFix.length` records) and resumes — but through
the handler of the stale pause render, whose closure still holds the
pre-fix corpus and counter, so the resumed run rebuilds its accumulator
from the pre-fix records: batches `k+1..N-1` are processed exactly once
each and the pre-pause records keep their count and identifiers, but the
final corpus gains only the `k+1..N-1` records — the corrected batch's
committed records are dropped, contradicting the claimed completion of
the repaired batch. -/
theorem C5_resume_drops_fixed_batch (svc : String → SvcOutcome)
    (audit : List String → List AuditFix) (time : Nat → Nat → Nat) (modelId : String)
    (stop : Nat → Bool) (st : AppState) (raws : Nat → List RawPaper) (tr : Nat → Bool)
    (k : Nat) (newText : String) (rFix : List RawPaper) (trF : Bool)
    (hkey : st.apiKey ≠ "") (htxt : jsTrim st.inputText ≠ "")
    (hstop : ∀ j, stop j = false)
    (hk : k < (startBatches st).length)
    (hok : ∀ j, j < k → svc ((startBatches st).getD j "") = SvcOutcome.ok (raws j) (tr j))
    (hfail : svc ((startBatches st).getD k "") = SvcOutcome.parseFailure)
    (hfix : svc newText = SvcOutcome.ok rFix trF)
    (hok2 : ∀ j, k < j → j < (startBatches st).length →
      svc ((startBatches st).getD j "") = SvcOutcome.ok (raws j) (tr j))
    (htrig : k + 1 < (startBatches st).length ∨ (st.papers ≠ [] ∧ ∀ l, audit l ≠ [])) :
    (handleProcessAll svc audit time modelId stop 0 "" st).manualFixState =
        some ((startBatches st).getD k "", k) ∧
      (∃ merged, (handleProcessAll svc audit time modelId stop 0 "" st).papers =
          st.papers ++ merged ∧ merged.length = sumRawLens raws 0 k) ∧
      (handleProcessAll svc audit time modelId stop 0 "" st).batchCount =
        st.batchCount + k ∧
      (manualFixCommitted svc time modelId newText
          (handleProcessAll svc audit time modelId stop 0 "" st)).papers.length =
        (handleProcessAll svc audit time modelId stop 0 "" st).papers.length +
          rFix.length ∧
      (handleManualFixSave svc audit time modelId stop newText
          (handleProcessAll svc audit time modelId stop 0 "" st)).manualFixState = none ∧
      ∃ tailIds,
        (handleManualFixSave svc audit time modelId stop newText
              (handleProcessAll svc audit time modelId stop 0 "" st)).papers.map Paper.id =
            (handleProcessAll svc audit time modelId stop 0 "" st).papers.map Paper.id ++
              tailIds ∧
          tailIds.length = sumRawLens raws (k + 1) (startBatches st).length := by
  obtain ⟨merged, hst1, hmlen⟩ := handleProcessAll_pause svc audit time modelId stop st
    raws tr k hkey htxt hstop hk hok hfail
  have hmfs : handleManualFixSave svc audit time modelId stop newText
      { st with consolidationSuggestions := none
                isConsolidationComplete := false
                papers := st.papers ++ merged
                batchCount := st.batchCount + k
                manualFixState := some ((startBatches st).getD k "", k) } =
      handleProcessAllW svc audit time modelId stop (k + 1) ""
        { st with consolidationSuggestions := none
                  isConsolidationComplete := false
                  papers := st.papers ++ merged
                  batchCount := st.batchCount + k
                  manualFixState := some ((startBatches st).getD k "", k) }
        (manualFixCommitted svc time modelId newText
          { st with consolidationSuggestions := none
                    isConsolidationComplete := false
                    papers := st.papers ++ merged
                    batchCount := st.batchCount + k
                    manualFixState := some ((startBatches st).getD k "", k) }) := by
    unfold handleManualFixSave
    simp only [Option.map, Option.getD]
    rw [hfix]
  have htrig2 : k + 1 <
      (startBatches { st with consolidationSuggestions := none
                              isConsolidationComplete := false
                              papers := st.papers ++ merged
                              batchCount := st.batchCount + k
                              manualFixState :=
                                some ((startBatches st).getD k "", k) }).length ∨
      (({ st with consolidationSuggestions := none
                  isConsolidationComplete := false
                  papers := st.papers ++ merged
                  batchCount := st.batchCount + k
                  manualFixState := some ((startBatches st).getD k "", k) } :
          AppState).papers ≠ [] ∧ ∀ l, audit l ≠ []) := by
    rcases htrig with h | ⟨h1, h2⟩
    · exact Or.inl h
    · refine Or.inr ⟨?_, h2⟩
      show st.papers ++ merged ≠ []
      intro hcon
      rcases List.append_eq_nil.mp hcon with ⟨hcon1, _⟩
      exact h1 hcon1
  obtain ⟨hA, tailIds, htail, htlen, hshape⟩ :=
    handleProcessAllW_resume_ids svc audit time modelId stop (k + 1)
      { st with consolidationSuggestions := none
                isConsolidationComplete := false
                papers := st.papers ++ merged
                batchCount := st.batchCount + k
                manualFixState := some ((startBatches st).getD k "", k) }
      (manualFixCommitted svc time modelId newText
        { st with consolidationSuggestions := none
                  isConsolidationComplete := false
                  papers := st.papers ++ merged
                  batchCount := st.batchCount + k
                  manualFixState := some ((startBatches st).getD k "", k) })
      raws tr hkey htxt hstop (fun j hj1 hj2 => hok2 j (by omega) hj2) htrig2
  have hmidmfs : (manualFixCommitted svc time modelId newText
      { st with consolidationSuggestions := none
                isConsolidationComplete := false
                papers := st.papers ++ merged
                batchCount := st.batchCount + k
                manualFixState :=
                  some ((startBatches st).getD k "", k) }).manualFixState = none := by
    unfold manualFixCommitted
    simp only []
    rw [hfix]
  rw [hst1]
  refine ⟨rfl, ⟨merged, rfl, hmlen⟩, rfl, ?_, ?_, ?_⟩
  · unfold manualFixCommitted
    simp only []
    rw [hfix]
    dsimp only
    rw [List.length_append, buildPapers_length]
  · rw [hmfs, hA, hmidmfs]
  · exact ⟨tailIds, by rw [hmfs]; exact htail, htlen⟩

/-- C5 witness: one record is already committed; the two-character input
forms a single batch whose text the service rejects; the corrected text
`"fixed"` decodes to one record, which the committed state gains and the
resumed finalization (whose auditor returns a fix) then drops. -/
theorem C5_witness :
    (handleProcessAll c5Svc c5Audit (fun _ _ => 7) "m" (fun _ => false) 0 ""
          c5State).manualFixState =
        some ((startBatches c5State).getD 0 "", 0) ∧
      (∃ merged, (handleProcessAll c5Svc c5Audit (fun _ _ => 7) "m" (fun _ => false)
            0 "" c5State).papers =
          c5State.papers ++ merged ∧ merged.length = sumRawLens (fun _ => []) 0 0) ∧
      (handleProcessAll c5Svc c5Audit (fun _ _ => 7) "m" (fun _ => false) 0 ""
          c5State).batchCount = c5State.batchCount + 0 ∧
      (manualFixCommitted c5Svc (fun _ _ => 7) "m" "fixed"
          (handleProcessAll c5Svc c5Audit (fun _ _ => 7) "m" (fun _ => false) 0 ""
            c5State)).papers.length =
        (handleProcessAll c5Svc c5Audit (fun _ _ => 7) "m" (fun _ => false) 0 ""
            c5State).papers.length + 1 ∧
      (handleManualFixSave c5Svc c5Audit (fun _ _ => 7) "m" (fun _ => false) "fixed"
          (handleProcessAll c5Svc c5Audit (fun _ _ => 7) "m" (fun _ => false) 0 ""
            c5State)).manualFixState = none ∧
      ∃ tailIds,
        (handleManualFixSave c5Svc c5Audit (fun _ _ => 7) "m" (fun _ => false) "fixed"
              (handleProcessAll c5Svc c5Audit (fun _ _ => 7) "m" (fun _ => false) 0 ""
                c5State)).papers.map Paper.id =
            (handleProcessAll c5Svc c5Audit (fun _ _ => 7) "m" (fun _ => false) 0 ""
              c5State).papers.map Paper.id ++ tailIds ∧
          tailIds.length = sumRawLens (fun _ => []) 1 (startBatches c5State).length := by
  have hN : (startBatches c5State).length = 1 := by decide
  exact C5_resume_drops_fixed_batch c5Svc c5Audit (fun _ _ => 7) "m" (fun _ => false)
    c5State (fun _ => []) (fun _ => false) 0 "fixed" [{}] false
    (by decide) (by decide) (fun j => rfl) (by omega)
    (fun j hj => absurd hj (Nat.not_lt_zero j)) (by decide) (by decide)
    (fun j hj1 hj2 => absurd hj1 (by omega))
    (Or.inr ⟨by decide, fun l => List.cons_ne_nil _ _⟩)

/-- C8 (code bug): the claim that only a full corpus reset removes a
record is violated on the manual-fix resume path.  The corrected batch's
records are committed to the state by the functional update of
`handleManualFixSave`, but the resumed run rebuilds its accumulator from
the stale pre-fix render closure, and its next committed write (the
per-batch overwrite, or the audited finalization) rebuilds the corpus
without them: some committed record's identifier is shared by no record
of the final corpus, although no reset ran. -/
theorem C8_committed_fixed_record_removed (svc : String → SvcOutcome)
    (audit : List String → List AuditFix) (time : Nat → Nat → Nat) (modelId : String)
    (stop : Nat → Bool) (st1 : AppState) (raws : Nat → List RawPaper) (tr : Nat → Bool)
    (k : Nat) (origText newText : String) (rFix : List RawPaper) (trF : Bool)
    (hkey : st1.apiKey ≠ "") (htxt : jsTrim st1.inputText ≠ "")
    (hstop : ∀ j, stop j = false)
    (hpause : st1.manualFixState = some (origText, k))
    (hwf : ∀ p ∈ st1.papers, idOkB st1.batchCount p.id = true)
    (hfix : svc newText = SvcOutcome.ok rFix trF)
    (hrfix : rFix ≠ [])
    (hok2 : ∀ j, k + 1 ≤ j → j < (startBatches st1).length →
      svc ((startBatches st1).getD j "") = SvcOutcome.ok (raws j) (tr j))
    (htrig : k + 1 < (startBatches st1).length ∨ (st1.papers ≠ [] ∧ ∀ l, audit l ≠ [])) :
    ∃ p, p ∈ (manualFixCommitted svc time modelId newText st1).papers ∧
      ∀ q ∈ (handleManualFixSave svc audit time modelId stop newText st1).papers,
        q.id ≠ p.id := by
  obtain ⟨r0, rrest, hr⟩ : ∃ a l, rFix = a :: l := by
    cases rFix with
    | nil => exact absurd rfl hrfix
    | cons a l => exact ⟨a, l, rfl⟩
  have hmidp : (manualFixCommitted svc time modelId newText st1).papers =
      st1.papers ++ buildPapers (fun idx p =>
        mkPaperFixed st1.batchCount idx (time st1.batchCount idx) modelId p) 0 rFix := by
    unfold manualFixCommitted
    simp only []
    rw [hfix]
  have hmfs : handleManualFixSave svc audit time modelId stop newText st1 =
      handleProcessAllW svc audit time modelId stop (k + 1) "" st1
        (manualFixCommitted svc time modelId newText st1) := by
    unfold handleManualFixSave
    simp only [hpause, Option.map, Option.getD]
    rw [hfix]
  obtain ⟨hA, tailIds, htail, htlen, hshape⟩ :=
    handleProcessAllW_resume_ids svc audit time modelId stop (k + 1) st1
      (manualFixCommitted svc time modelId newText st1) raws tr hkey htxt hstop hok2 htrig
  refine ⟨mkPaperFixed st1.batchCount 0 (time st1.batchCount 0) modelId r0, ?_, ?_⟩
  · rw [hmidp, hr]
    exact List.mem_append_right _ (List.mem_cons_self _ _)
  · intro q hq hcon
    have hqid : q.id ∈ (handleManualFixSave svc audit time modelId stop newText
        st1).papers.map Paper.id := List.mem_map_of_mem _ hq
    rw [hmfs, htail] at hqid
    rcases List.mem_append.mp hqid with hmem | hmem
    · rcases List.mem_map.mp hmem with ⟨q2, hq2, hq2e⟩
      have hne := idOkB_ne_new_fixed st1.batchCount q2.id (hwf q2 hq2) 0
        (time st1.batchCount 0)
      apply hne
      rw [hq2e, hcon]
      rfl
    · rcases hshape q.id hmem with ⟨c, idx, hltc, hid⟩
      rw [hcon] at hid
      have hid2 : mkPaperId true st1.batchCount 0 (time st1.batchCount 0) =
          mkPaperId false c idx (time c idx) := hid
      have := (mkPaperId_inj hid2).1
      exact absurd this (by decide)

/-- C8 witness: a one-record corpus paused on batch 0 of a one-batch
input; the corrected text `"mended"` decodes to one record, which the
committed state contains and the resumed audited finalization drops. -/
theorem C8_witness :
    ∃ p, p ∈ (manualFixCommitted c8Svc (fun _ _ => 7) "m" "mended" c8Paused).papers ∧
      ∀ q ∈ (handleManualFixSave c8Svc c8Audit (fun _ _ => 7) "m" (fun _ => false)
          "mended" c8Paused).papers, q.id ≠ p.id := by
  have hN : (startBatches c8Paused).length = 1 := by decide
  exact C8_committed_fixed_record_removed c8Svc c8Audit (fun _ _ => 7) "m"
    (fun _ => false) c8Paused (fun _ => []) (fun _ => false) 0 "orig" "mended" [{}] false
    (by decide) (by decide) (fun j => rfl) (by decide) (by decide) (by decide) (by decide)
    (fun j hj1 hj2 => absurd hj1 (by omega))
    (Or.inr ⟨by decide, fun l => List.cons_ne_nil _ _⟩)

end EcoSynth
